import Mathlib

/-!
# howm: the command layer (command.c)

A shallow embedding of the commands of `command.c` over an explicit program
state.  Globals of the C program become fields of `Howm.State`; calls into
collaborators whose bodies live elsewhere (the X binding, the logger, the
operator bound to `operator_func`) are recorded, in order, in `State.trace`.
-/

namespace Howm

/-! ## Data model -/

/-- Address of a `Client` record; the null pointer is `none : Option Ptr`. -/
abbrev Ptr := Nat

/-- Motion scopes handed to an operator as its `type` argument.  The header
declaring the enumerators `WORKSPACE` and `CLIENT` is not among the sources, so
their numeric values are left abstract. -/
inductive Scope where
  | WORKSPACE
  | CLIENT
  deriving DecidableEq, Repr

/-- Calls that leave `command.c`, as they appear in the trace. -/
inductive Event where
  | operator_func (f : Nat) (type : Scope) (cnt : Int)
  | xcb_map_window (win : Nat)
  | update_focused_client (c : Option Ptr)
  | arrange_windows
  | draw_clients
  | howm_info
  | log_info
  | log_warn
  | log_err
  | xcb_unmap_window (win : Nat)
  | xcb_ewmh_set_current_desktop (desktop : Nat)
  | xcb_ewmh_set_workarea (x : Nat) (y : Nat) (width : Nat) (height : Nat)
  | write (ret : Int)
  | close
  deriving DecidableEq, Repr

/-- The record `struct Client` of client.h. -/
structure Client where
  next : Option Ptr
  is_fullscreen : Bool
  is_floating : Bool
  is_transient : Bool
  is_urgent : Bool
  win : Nat
  x : Nat
  y : Nat
  w : Nat
  h : Nat
  gap : Nat
  deriving DecidableEq, Repr

/-- The fields of `Workspace` that command.c reads and writes (the type
declaration itself is in a header that is not among the sources).  The master
ratio, a C `float`, is carried as the rational number it denotes. -/
structure Workspace where
  layout : Int
  client_cnt : Int
  master_ratio : ℚ
  bar_height : Nat
  head : Option Ptr
  current : Option Ptr
  deriving DecidableEq, Repr

/-- The layout enumerators used by command.c; layout.h is not among the
sources, so their values are parameters of the commands that consult them. -/
structure Layouts where
  ZOOM : Int
  HSTACK : Int
  VSTACK : Int
  END_LAYOUT : Int
  deriving DecidableEq, Repr

/-- The program state: the globals of howm.h and command.c, the client heap,
the delete register and the trace of outgoing calls.  `operator_func` is the
function pointer of howm.c, identified by an address, `none` when null. -/
structure State where
  cur_mode : Nat
  cur_state : Int
  cur_cnt : Int
  operator_func : Option Nat
  cw : Int
  last_ws : Int
  previous_layout : Int
  wss : Int → Workspace
  mem : Ptr → Client
  del_reg : List Ptr
  trace : List Event

/-- Grammar states: `enum states` of howm.h. -/
def OPERATOR_STATE : Int := 0
/-- See `OPERATOR_STATE`. -/
def COUNT_STATE : Int := 1
/-- See `OPERATOR_STATE`. -/
def MOTION_STATE : Int := 2
/-- See `OPERATOR_STATE`. -/
def END_STATE : Int := 3

/-- Interaction modes: `enum modes` of howm.c. -/
def NORMAL : Int := 0
/-- See `NORMAL`. -/
def FOCUS : Int := 1
/-- See `NORMAL`. -/
def FLOATING : Int := 2
/-- See `NORMAL`. -/
def END_MODES : Int := 3

/-- Number of workspaces, howm.h. -/
def WORKSPACES : Int := 5

/-- Append one outgoing call to the trace. -/
def State.emit (s : State) (e : Event) : State :=
  { s with trace := s.trace ++ [e] }

/-- The workspace `wss[cw]`. -/
def State.cur_ws (s : State) : Workspace := s.wss s.cw

/-- Store `ws` into `wss[cw]`. -/
def State.set_cur_ws (s : State) (ws : Workspace) : State :=
  { s with wss := Function.update s.wss s.cw ws }

/-! ## libc -/

/-- The libc routine `strncmp` on NUL-terminated strings, given as the
characters before the terminator: compares at most `n` characters and returns
zero, a negative or a positive number. -/
def strncmp : List Char → List Char → Nat → Int
  | _, _, 0 => 0
  | [], [], _ + 1 => 0
  | [], b :: _, _ + 1 => -(b.toNat : Int)
  | a :: _, [], _ + 1 => (a.toNat : Int)
  | a :: as, b :: bs, n + 1 =>
    if a = b then (if a.toNat = 0 then 0 else strncmp as bs n)
    else (a.toNat : Int) - (b.toNat : Int)

/-! ## The operator grammar: `count` and `motion` -/

/-- The command `count` of command.c. -/
def count (s : State) (cnt : Int) : State :=
  if s.cur_state ≠ COUNT_STATE then s
  else { s with cur_cnt := cnt, cur_state := MOTION_STATE }

/-- The tail of `motion` once `type` is decided: call through `operator_func`
with `(type, cur_cnt)`, then reset the grammar.  A call through a null
function pointer has no defined result: `none`. -/
def motion_dispatch (s : State) (type : Scope) : Option State :=
  match s.operator_func with
  | none => none
  | some f =>
    some { s.emit (Event.operator_func f type s.cur_cnt) with
      cur_state := OPERATOR_STATE, cur_cnt := 1 }

/-- The command `motion` of command.c. -/
def motion (s : State) (target : List Char) : Option State :=
  if strncmp target ['w'] 1 = 0 then motion_dispatch s Scope.WORKSPACE
  else if strncmp target ['c'] 1 = 0 then motion_dispatch s Scope.CLIENT
  else some s

/-- One grammar input: a call of `count` or of `motion`. -/
inductive Call where
  | count (cnt : Int)
  | motion (target : List Char)
  deriving DecidableEq, Repr

/-- Perform one grammar input. -/
def step (s : State) : Call → Option State
  | Call.count cnt => some (count s cnt)
  | Call.motion target => motion s target

/-- Perform a sequence of grammar inputs, left to right. -/
def run (s : State) : List Call → Option State
  | [] => some s
  | c :: cs => (step s c).bind fun s1 => run s1 cs

/-- The counts handed to the operator, in trace order. -/
def dispatched_counts : List Event → List Int
  | [] => []
  | Event.operator_func _ _ cnt :: es => cnt :: dispatched_counts es
  | _ :: es => dispatched_counts es

/-- A state right after start-up: idle grammar, pending count 1, mode NORMAL,
every workspace empty, the operator pointer holding `f`. -/
def boot (f : Option Nat) : State where
  cur_mode := 0
  cur_state := OPERATOR_STATE
  cur_cnt := 1
  operator_func := f
  cw := 1
  last_ws := 0
  previous_layout := 0
  wss := fun _ => ⟨0, 0, 5033165 / 8388608, 0, none, none⟩
  mem := fun _ => ⟨none, false, false, false, false, 0, 0, 0, 0, 0, 0⟩
  del_reg := []
  trace := []

/-- The state of `boot` after an operator has been selected: the grammar
awaits a count. -/
def awaiting_count (f : Option Nat) : State :=
  { boot f with cur_state := COUNT_STATE }

/-! ## Modes -/

/-- The C conversion `(int)u` of an `unsigned int`, 32 bits wide. -/
def to_int (u : Nat) : Int :=
  if u % 2 ^ 32 < 2 ^ 31 then ((u % 2 ^ 32 : Nat) : Int)
  else ((u % 2 ^ 32 : Nat) : Int) - 2 ^ 32

/-- The C conversion of an `int` to `unsigned int`, 32 bits wide. -/
def to_unsigned (i : Int) : Nat := (i % 2 ^ 32).toNat

/-- The command `change_mode` of command.c. -/
def change_mode (s : State) (mode : Int) : State :=
  if mode ≥ END_MODES ∨ mode = to_int s.cur_mode then s
  else (({ s with cur_mode := to_unsigned mode }).emit Event.log_info).emit Event.howm_info

/-! ## Binary floating point -/

/-- The power `2 ^ z` of an integer exponent, as a rational. -/
def pow2 (z : Int) : ℚ :=
  if 0 ≤ z then ((2 ^ z.toNat : Nat) : ℚ) else 1 / ((2 ^ (-z).toNat : Nat) : ℚ)

/-- The rational `m` rounded to the nearest integer, a tie going to the even
one. -/
def round_half_even (m : ℚ) : Int :=
  if m - ⌊m⌋ < 1 / 2 then ⌊m⌋
  else if 1 / 2 < m - ⌊m⌋ then ⌊m⌋ + 1
  else if ⌊m⌋ % 2 = 0 then ⌊m⌋ else ⌊m⌋ + 1

/-- Binary logarithm by repeated halving, at most `fuel` times. -/
def log2_fuel : Nat → Nat → Nat
  | 0, _ => 0
  | fuel + 1, n => if 2 ≤ n then log2_fuel fuel (n / 2) + 1 else 0

/-- The largest `e` with `2 ^ e <= n`, for positive `n`. -/
def ilog2 (n : Nat) : Nat := log2_fuel n n

/-- The largest integer `e` with `2 ^ e <= a`, for a positive rational `a`:
the difference of the logarithms of numerator and denominator, lowered by one
when it overshoots. -/
def floor_log2 (a : ℚ) : Int :=
  let e0 : Int := (ilog2 a.num.natAbs : Int) - (ilog2 a.den : Int)
  if pow2 e0 ≤ a then e0 else e0 - 1

/-- Rounding of the rational `q` to the nearest value of the IEEE 754 binary
format with `prec` significant bits and least normal exponent `emin` (ties to
even, gradual underflow): the magnitude is rounded to a whole multiple of the
quantum `2 ^ (max e emin - (prec - 1))`, `e` the binary exponent of `q`.  The
largest finite value of the format is not modelled: the commands that use this
rounding stay far below it on `int` arguments. -/
def round_binary (prec : Nat) (emin : Int) (q : ℚ) : ℚ :=
  if q = 0 then 0
  else
    let z : Int := max (floor_log2 |q|) emin - ((prec : Int) - 1)
    let mag : ℚ := (round_half_even (|q| / pow2 z) : ℚ) * pow2 z
    if q < 0 then -mag else mag

/-- Rounding to `float` (binary32). -/
def fl32 (q : ℚ) : ℚ := round_binary 24 (-126) q

/-- Rounding to `double` (binary64). -/
def fl64 (q : ℚ) : ℚ := round_binary 53 (-1022) q

/-- The `double` constant `0.1` of command.c. -/
def double_tenth : ℚ := fl64 (1 / 10)

/-! ## Master ratio -/

/-- The command `resize_master` of command.c.  The master ratio and `change`
are `float` values and every operation rounds to binary32: `(float)ds`, the
division by 100, the sum `master_ratio + change` of the guard and the sum
stored by `+=`.  The guard compares the `float` sum with the `int` 1 and with
the `double` constant 0.1. -/
def resize_master (L : Layouts) (s : State) (ds : Int) : State :=
  if s.cur_ws.layout ≠ L.HSTACK ∧ s.cur_ws.layout ≠ L.VSTACK then s
  else
    let change : ℚ := fl32 (fl32 (ds : ℚ) / 100)
    if fl32 (s.cur_ws.master_ratio + change) ≥ 1 ∨
        fl32 (s.cur_ws.master_ratio + change) ≤ double_tenth then s
    else
      let s1 := s.emit Event.log_info
      let s2 := s1.set_cur_ws
        { s1.cur_ws with master_ratio := fl32 (s1.cur_ws.master_ratio + change) }
      s2.emit Event.arrange_windows

/-- Store `n` into `c->next`. -/
def State.set_next (s : State) (c : Ptr) (n : Option Ptr) : State :=
  { s with mem := Function.update s.mem c { s.mem c with next := n } }

/-- List segment: starting at pointer `p` and following `next`, the clients
visited are exactly `l`, and the `next` of the last one (or `p` itself when `l`
is empty) is `q`. -/
def is_seg (mem : Ptr → Client) : Option Ptr → List Ptr → Option Ptr → Prop
  | p, [], q => p = q
  | p, c :: l, q => p = some c ∧ is_seg mem (mem c).next l q

/-- A chain: the clients reachable from `p` are exactly `l`, in this order,
and the walk ends at the null pointer. -/
def is_chain (mem : Ptr → Client) (p : Option Ptr) (l : List Ptr) : Prop :=
  is_seg mem p l none

/-- Whether a list segment holds can be computed. -/
def is_seg_decidable (mem : Ptr → Client) :
    (p : Option Ptr) → (l : List Ptr) → (q : Option Ptr) → Decidable (is_seg mem p l q)
  | p, [], q => inferInstanceAs (Decidable (p = q))
  | p, c :: l, q =>
    match is_seg_decidable mem (mem c).next l q with
    | isTrue h =>
      if hp : p = some c then isTrue ⟨hp, h⟩ else isFalse fun hh => hp hh.1
    | isFalse h => isFalse fun hh => h hh.2

instance (mem : Ptr → Client) (p : Option Ptr) (l : List Ptr) (q : Option Ptr) :
    Decidable (is_seg mem p l q) := is_seg_decidable mem p l q

instance (mem : Ptr → Client) (p : Option Ptr) (l : List Ptr) :
    Decidable (is_chain mem p l) := is_seg_decidable mem p l none

/-- Modelled from the spec: `stack_pop`, whose body is not among the sources.
The delete register is a LIFO of client groups, each held by the pointer to its
first client; popping returns the most recent group and removes it, and popping
the empty register returns the null pointer and changes nothing. -/
def stack_pop (reg : List Ptr) : Option Ptr × List Ptr :=
  match reg with
  | [] => (none, [])
  | g :: rest => (some g, rest)

/-- Modelled from the spec: `update_focused_client` (set-focus), whose body is
not among the sources: it sets the current workspace's `current` reference to
`c` and triggers the visual emphasis on the collaborator, recorded in the
trace. -/
def update_focused_client (s : State) (c : Option Ptr) : State :=
  (s.set_cur_ws { s.cur_ws with current := c }).emit (Event.update_focused_client c)

/-- The loop of the first two branches of `paste`:
`while (c) { xcb_map_window(dpy, c->win); wss[cw].current = c; c = c->next;
wss[cw].client_cnt++; }`; one unit of fuel per iteration. -/
def paste_walk : Nat → State → Option Ptr → Option State
  | _, s, none => some s
  | 0, _, some _ => none
  | fuel + 1, s, some c =>
    let s1 := s.emit (Event.xcb_map_window (s.mem c).win)
    let s2 := s1.set_cur_ws { s1.cur_ws with current := some c }
    let c1 := (s2.mem c).next
    let s3 := s2.set_cur_ws { s2.cur_ws with client_cnt := s2.cur_ws.client_cnt + 1 }
    paste_walk fuel s3 c1

/-- The loop of the last branch of `paste`, which ties the last client of the
group to `t` and leaves through `break`; one unit of fuel per iteration. -/
def paste_splice (t : Option Ptr) : Nat → State → Option Ptr → Option State
  | _, s, none => some s
  | 0, _, some _ => none
  | fuel + 1, s, some c =>
    let s1 := s.emit (Event.xcb_map_window (s.mem c).win)
    let s2 := s1.set_cur_ws { s1.cur_ws with client_cnt := s1.cur_ws.client_cnt + 1 }
    match (s2.mem c).next with
    | none =>
      let s3 := s2.set_next c t
      some (s3.set_cur_ws { s3.cur_ws with current := some c })
    | some n =>
      paste_splice t fuel (s2.set_cur_ws { s2.cur_ws with current := some c }) (some n)

/-- The command `paste` of command.c; `fuel` bounds the iterations of its
loop, and the result is `none` when the fuel does not suffice. -/
def paste (fuel : Nat) (s : State) : Option State :=
  let popped := stack_pop s.del_reg
  let s0 : State := { s with del_reg := popped.2 }
  match popped.1 with
  | none => some (s0.emit Event.log_warn)
  | some head =>
    let looped : Option State :=
      match s0.cur_ws.current with
      | none =>
        let s1 := s0.set_cur_ws { s0.cur_ws with head := some head }
        let s2 := s1.set_cur_ws { s1.cur_ws with current := some head }
        paste_walk fuel s2 (some head)
      | some cur =>
        match (s0.mem cur).next with
        | none => paste_walk fuel (s0.set_next cur (some head)) (some head)
        | some t => paste_splice (some t) fuel (s0.set_next cur (some head)) (some head)
    looped.map fun s3 => update_focused_client s3 s3.cur_ws.current

/-- State after one full iteration of the loop of `paste_walk` on client `c`
(the pointer `c` itself advances to `c->next`). -/
def paste_walk_body (s : State) (c : Ptr) : State :=
  let s1 := s.emit (Event.xcb_map_window (s.mem c).win)
  let s2 := s1.set_cur_ws { s1.cur_ws with current := some c }
  s2.set_cur_ws { s2.cur_ws with client_cnt := s2.cur_ws.client_cnt + 1 }

/-- State after an iteration of the loop of `paste_splice` on a client `c`
that has a successor. -/
def paste_splice_continue (s : State) (c : Ptr) : State :=
  let s1 := s.emit (Event.xcb_map_window (s.mem c).win)
  let s2 := s1.set_cur_ws { s1.cur_ws with client_cnt := s1.cur_ws.client_cnt + 1 }
  s2.set_cur_ws { s2.cur_ws with current := some c }

/-- State after the last iteration of the loop of `paste_splice`, on the
client `c` without successor: `c->next = t`, then `break`. -/
def paste_splice_break (t : Option Ptr) (s : State) (c : Ptr) : State :=
  let s1 := s.emit (Event.xcb_map_window (s.mem c).win)
  let s2 := s1.set_cur_ws { s1.cur_ws with client_cnt := s1.cur_ws.client_cnt + 1 }
  let s3 := s2.set_next c t
  s3.set_cur_ws { s3.cur_ws with current := some c }

/-- State on entry to the loop of the first branch of `paste`:
`wss[cw].head = head; wss[cw].current = head;`. -/
def paste_enter_empty (s0 : State) (head : Ptr) : State :=
  let s1 := s0.set_cur_ws { s0.cur_ws with head := some head }
  s1.set_cur_ws { s1.cur_ws with current := some head }

/-- A client record with the given window and successor, every flag clear. -/
def mk_client (win : Nat) (next : Option Ptr) : Client :=
  ⟨next, false, false, false, false, win, 0, 0, 0, 0, 0⟩

/-- A sample heap: the chain 1, 2, 3 and the detached group 4, 5. -/
def sample_mem : Ptr → Client := fun p =>
  if p = 1 then mk_client 101 (some 2)
  else if p = 2 then mk_client 102 (some 3)
  else if p = 3 then mk_client 103 none
  else if p = 4 then mk_client 104 (some 5)
  else mk_client 105 none

/-- A sample state: workspace 1 holds the chain 1, 2, 3 with focus on 2, and
the delete register holds the group 4, 5. -/
def sample_state : State :=
  { boot none with
    wss := fun k => if k = 1 then ⟨0, 3, 5033165 / 8388608, 0, some 1, some 2⟩
      else ⟨0, 0, 5033165 / 8388608, 0, none, none⟩
    mem := sample_mem
    del_reg := [4] }

/-- A sample layout numbering. -/
def sample_layouts : Layouts := ⟨0, 1, 2, 3⟩

/-- The state of `boot` with workspace 1 in layout 1, the HSTACK of
`sample_layouts`, and master ratio `r`. -/
def stack_state (r : ℚ) : State :=
  { boot none with wss := fun _ => ⟨1, 0, r, 0, none, none⟩ }

/-- The state of `boot` with workspace 1 in layout `layout`. -/
def boot_in_layout (layout : Int) : State :=
  { boot none with wss := fun _ => ⟨layout, 0, 5033165 / 8388608, 0, none, none⟩ }

/-! ## Workspaces -/

/-- Read-only globals consulted by command.c: the screen size declared in
howm.h and the fields of `conf` that the commands read.  `wss_slack` is the
number of elements that the array `wss` holds beyond index WORKSPACES: howm.h
declares `extern Workspace wss[]`, the definition that fixes its length is not
among the sources, and the indices 1 to WORKSPACES are in use throughout. -/
structure Env where
  screen_width : Nat
  screen_height : Nat
  bar_bottom : Bool
  border_px : Nat
  wss_slack : Nat
  deriving DecidableEq, Repr

/-- The loops `for (; c; c = c->next) f(dpy, c->win);` of `change_ws`, where
`f` is `xcb_map_window` or `xcb_unmap_window`; one unit of fuel per
iteration. -/
def walk_windows (ev : Nat → Event) : Nat → State → Option Ptr → Option State
  | _, s, none => some s
  | 0, _, some _ => none
  | fuel + 1, s, some c => walk_windows ev fuel (s.emit (ev (s.mem c).win)) (s.mem c).next

/-- The part of `change_ws` after its two loops: `cw = ws`, refocus, publish
the desktop and the work area, `howm_info`.  The desktop number and the four
fields of the work area are `uint32_t`: the `int` values computed for them are
converted. -/
def change_ws_finish (E : Env) (s4 : State) (ws : Int) : State :=
  let s5 : State := { s4 with cw := ws }
  let s6 := update_focused_client s5 s5.cur_ws.current
  let s7 := s6.emit (Event.xcb_ewmh_set_current_desktop (to_unsigned (s6.cw - 1)))
  let s8 := s7.emit (Event.xcb_ewmh_set_workarea 0
    (to_unsigned (if E.bar_bottom then 0 else (s7.cur_ws.bar_height : Int)))
    (to_unsigned (E.screen_width : Int))
    (to_unsigned ((E.screen_height : Int) - (s7.cur_ws.bar_height : Int))))
  s8.emit Event.howm_info

/-- The command `change_ws` of command.c; `fuel` bounds each of its loops.
Its first statement reads `wss[ws].head`, ahead of the guard: for an index
outside the array `wss` that read has no defined behaviour, and the result is
`none`. -/
def change_ws (E : Env) (fuel : Nat) (s : State) (ws : Int) : Option State :=
  if ws < 0 ∨ WORKSPACES + (E.wss_slack : Int) < ws then none
  else
    let c := (s.wss ws).head
    if (to_unsigned ws : Int) > WORKSPACES ∨ ws ≤ 0 ∨ ws = s.cw then some s
    else
      let s1 : State := { s with last_ws := s.cw }
      let s2 := s1.emit Event.log_info
      (walk_windows Event.xcb_map_window fuel s2 c).bind fun s3 =>
        (walk_windows Event.xcb_unmap_window fuel s3 (s3.wss s3.last_ws).head).map fun s4 =>
          change_ws_finish E s4 ws

/-- The command `focus_last_ws` of command.c. -/
def focus_last_ws (E : Env) (fuel : Nat) (s : State) : Option State :=
  change_ws E fuel (s.emit Event.log_info) s.last_ws

/-- The inner loop of `focus_urgent`:
`for (c = wss[w].head; c && !c->is_urgent; c = c->next);`, returning the final
`c`; one unit of fuel per iteration. -/
def find_urgent (mem : Ptr → Client) : Nat → Option Ptr → Option (Option Ptr)
  | _, none => some none
  | 0, some _ => none
  | fuel + 1, some c =>
    if (mem c).is_urgent then some (some c) else find_urgent mem fuel (mem c).next

/-- The outer loop of `focus_urgent`: `for (w = 1; w <= WORKSPACES; w++)` around
the inner loop, returning the final `c` and `w`; `n` bounds its iterations and
`fuel` those of each inner loop. -/
def focus_urgent_scan (s : State) (fuel : Nat) : Nat → Int → Option Ptr → Option (Option Ptr × Int)
  | n, w, c =>
    if w ≤ WORKSPACES then
      match n with
      | 0 => none
      | n + 1 =>
        (find_urgent s.mem fuel (s.wss w).head).bind fun c1 =>
          focus_urgent_scan s fuel n (w + 1) c1
    else some (c, w)

/-- The command `focus_urgent` of command.c. -/
def focus_urgent (E : Env) (fuel : Nat) (s : State) : Option State :=
  (focus_urgent_scan s fuel fuel 1 none).bind fun r =>
    match r.1 with
    | none => some s
    | some c =>
      (change_ws E fuel (s.emit Event.log_info) r.2).map fun s1 =>
        update_focused_client s1 (some c)

/-! ## Layouts -/

/-- The command `change_layout` of command.c. -/
def change_layout (L : Layouts) (s : State) (layout : Int) : State :=
  if layout = s.cur_ws.layout ∨ layout ≥ L.END_LAYOUT ∨ layout < L.ZOOM then s
  else
    let s1 := s.set_cur_ws { s.cur_ws with layout := layout }
    let s2 := update_focused_client s1 s1.cur_ws.current
    let s3 := s2.emit Event.log_info
    { s3 with previous_layout := s3.cur_ws.layout }

/-- The command `prev_layout` of command.c. -/
def prev_layout (L : Layouts) (s : State) : State :=
  let i : Int := if s.cur_ws.layout < 1 then L.END_LAYOUT - 1 else s.cur_ws.layout - 1
  change_layout L (s.emit Event.log_info) i

/-- The command `next_layout` of command.c; `%` of C truncates. -/
def next_layout (L : Layouts) (s : State) : State :=
  let i : Int := Int.tmod (s.cur_ws.layout + 1) L.END_LAYOUT
  change_layout L (s.emit Event.log_info) i

/-- The command `last_layout` of command.c. -/
def last_layout (L : Layouts) (s : State) : State :=
  change_layout L (s.emit Event.log_info) s.previous_layout

/-! ## Floating clients -/

/-- Conversion of an `int` to `uint16_t`. -/
def to_u16 (i : Int) : Nat := (i % 65536).toNat

/-- An `int` result, kept to 32 bits in two's complement. -/
def wrap_int (i : Int) : Int := to_int (to_unsigned i)

/-- Store the record `v` at address `c`. -/
def State.set_client (s : State) (c : Ptr) (v : Client) : State :=
  { s with mem := Function.update s.mem c v }

/-- The command `resize_float_width` of command.c. -/
def resize_float_width (s : State) (dw : Int) : State :=
  match s.cur_ws.current with
  | none => s
  | some c =>
    if (s.mem c).is_floating = false ∨ wrap_int (((s.mem c).w : Int) + dw) ≤ 0 then s
    else
      let s1 := s.emit Event.log_info
      let s2 := s1.set_client c { s1.mem c with w := to_u16 (((s1.mem c).w : Int) + dw) }
      s2.emit Event.draw_clients

/-- The command `resize_float_height` of command.c. -/
def resize_float_height (s : State) (dh : Int) : State :=
  match s.cur_ws.current with
  | none => s
  | some c =>
    if (s.mem c).is_floating = false ∨ wrap_int (((s.mem c).h : Int) + dh) ≤ 0 then s
    else
      let s1 := s.emit Event.log_info
      let s2 := s1.set_client c { s1.mem c with h := to_u16 (((s1.mem c).h : Int) + dh) }
      s2.emit Event.draw_clients

/-- The command `move_float_y` of command.c. -/
def move_float_y (s : State) (dy : Int) : State :=
  match s.cur_ws.current with
  | none => s
  | some c =>
    if (s.mem c).is_floating = false then s
    else
      let s1 := s.emit Event.log_info
      let s2 := s1.set_client c { s1.mem c with y := to_u16 (((s1.mem c).y : Int) + dy) }
      s2.emit Event.draw_clients

/-- The command `move_float_x` of command.c. -/
def move_float_x (s : State) (dx : Int) : State :=
  match s.cur_ws.current with
  | none => s
  | some c =>
    if (s.mem c).is_floating = false then s
    else
      let s1 := s.emit Event.log_info
      let s2 := s1.set_client c { s1.mem c with x := to_u16 (((s1.mem c).x : Int) + dx) }
      s2.emit Event.draw_clients

/-- The teleport locations; the header declaring them is not among the
sources, so their values are parameters of `teleport_client`. -/
structure Teleports where
  TOP_LEFT : Int
  TOP_CENTER : Int
  TOP_RIGHT : Int
  CENTER : Int
  BOTTOM_LEFT : Int
  BOTTOM_CENTER : Int
  BOTTOM_RIGHT : Int
  deriving DecidableEq, Repr

/-- The `switch` of `teleport_client`: the new `(x, y)` as `int` values, or
`none` when no case matches; `/` of C truncates. -/
def teleport_target (T : Teleports) (E : Env) (cl : Client) (bar_height : Nat)
    (direction : Int) : Option (Int × Int) :=
  let g : Int := cl.gap
  let w : Int := cl.w
  let h : Int := cl.h
  let bh : Int := bar_height
  let sw : Int := E.screen_width
  let sh : Int := E.screen_height
  let top : Int := (if E.bar_bottom then 0 else bh) + g
  let bottom : Int := (if E.bar_bottom then sh - bh else sh) - h - g - 2 * (E.border_px : Int)
  let right : Int := sw - w - g - 2 * (E.border_px : Int)
  if direction = T.TOP_LEFT then some (g, top)
  else if direction = T.TOP_CENTER then some (Int.tdiv (sw - w) 2, top)
  else if direction = T.TOP_RIGHT then some (right, top)
  else if direction = T.CENTER then some (Int.tdiv (sw - w) 2, Int.tdiv (sh - bh - h) 2)
  else if direction = T.BOTTOM_LEFT then some (g, bottom)
  else if direction = T.BOTTOM_CENTER then some (Int.tdiv sw 2 - Int.tdiv w 2, bottom)
  else if direction = T.BOTTOM_RIGHT then some (right, bottom)
  else none

/-- The command `teleport_client` of command.c. -/
def teleport_client (T : Teleports) (E : Env) (s : State) (direction : Int) : State :=
  match s.cur_ws.current with
  | none => s
  | some c =>
    if (s.mem c).is_floating = false ∨ (s.mem c).is_transient = true then s
    else
      let s1 :=
        match teleport_target T E (s.mem c) s.cur_ws.bar_height direction with
        | none => s
        | some xy => s.set_client c { s.mem c with x := to_u16 xy.1, y := to_u16 xy.2 }
      s1.emit Event.draw_clients

/-! ## The command channel -/

/-- The service of one accepted connection in `main` of howm.c, from the
result `n` of `read` on: `ipc_process_cmd`, whose body is not among the
sources, is a parameter that maps the state and the `n` bytes read to the new
state and the status; `write_ok` tells whether `write` succeeded. -/
def serve_connection (ipc_process_cmd : State → List Char → Int → State × Int)
    (s : State) (data : List Char) (n : Int) (write_ok : Bool) : State :=
  if n > 0 then
    let r := ipc_process_cmd s (data.take n.toNat) n
    let s1 := r.1.emit (Event.write r.2)
    let s2 := if write_ok then s1 else s1.emit Event.log_err
    s2.emit Event.close
  else s

/-! ## Sample states -/

/-- The state `sample_state` with the current reference of workspace 1
empty. -/
def sample_unfocused : State :=
  { sample_state with
    wss := fun k => if k = 1 then ⟨0, 3, 5033165 / 8388608, 0, some 1, none⟩
      else ⟨0, 0, 5033165 / 8388608, 0, none, none⟩ }

/-- A sample screen and configuration, the array `wss` holding one element
beyond index WORKSPACES. -/
def sample_env : Env := ⟨1920, 1080, false, 2, 1⟩

/-- A sample numbering of the teleport locations. -/
def sample_teleports : Teleports := ⟨0, 1, 2, 3, 4, 5, 6⟩

/-- A heap with a plain client 1 and an urgent client 2, both without
successor. -/
def urgent_mem : Ptr → Client := fun p =>
  if p = 2 then ⟨none, false, false, false, true, 102, 0, 0, 0, 0, 0⟩
  else mk_client (100 + p) none

/-- Workspace 1, the current one, holds client 1 with focus; workspace `k`
holds the urgent client 2; the others are empty. -/
def urgent_state (k : Int) : State :=
  { boot none with
    wss := fun j => if j = 1 then ⟨0, 1, 5033165 / 8388608, 0, some 1, some 1⟩
      else if j = k then ⟨0, 1, 5033165 / 8388608, 0, some 2, some 2⟩
      else ⟨0, 0, 5033165 / 8388608, 0, none, none⟩
    mem := urgent_mem }

/-- Workspace 1 holds the single floating client 1, of width `w` and height
`h`, with focus. -/
def float_state (w h : Nat) : State :=
  { boot none with
    wss := fun j => if j = 1 then ⟨0, 1, 5033165 / 8388608, 0, some 1, some 1⟩
      else ⟨0, 0, 5033165 / 8388608, 0, none, none⟩
    mem := fun _ => ⟨none, false, true, false, false, 101, 10, 10, w, h, 0⟩ }

/-- Workspaces 1 and 2 each hold one client, workspace 1 is current. -/
def two_ws_state : State :=
  { boot none with
    wss := fun j => if j = 1 then ⟨0, 1, 5033165 / 8388608, 0, some 1, some 1⟩
      else if j = 2 then ⟨0, 1, 5033165 / 8388608, 0, some 2, some 2⟩
      else ⟨0, 0, 5033165 / 8388608, 0, none, none⟩
    mem := fun p => mk_client (100 + p) none }

/-! ## Grammar: theorems -/

theorem strncmp_one_eq_zero_iff (t : List Char) (c : Char) (hc : c.toNat ≠ 0) :
    strncmp t [c] 1 = 0 ↔ t.head? = some c := by
  cases t with
  | nil =>
    simp only [strncmp, List.head?_nil]
    constructor
    · intro h
      exact absurd (by omega : c.toNat = 0) hc
    · intro h
      cases h
  | cons a as =>
    simp only [strncmp, List.head?_cons, Option.some.injEq]
    by_cases hac : a = c
    · subst hac
      simp [strncmp]
    · simp only [hac, if_false]
      constructor
      · intro h
        exfalso
        apply hac
        apply Char.ext
        apply UInt32.ext
        have : a.toNat = c.toNat := by omega
        exact this
      · intro h
        exact h.elim

theorem motion_of_w (s : State) (t : List Char) (h : t.head? = some 'w') :
    motion s t = motion_dispatch s Scope.WORKSPACE := by
  have hw : strncmp t ['w'] 1 = 0 := (strncmp_one_eq_zero_iff t 'w' (by decide)).2 h
  simp [motion, hw]

theorem motion_of_c (s : State) (t : List Char) (h : t.head? = some 'c') :
    motion s t = motion_dispatch s Scope.CLIENT := by
  have hw : ¬ strncmp t ['w'] 1 = 0 := by
    rw [strncmp_one_eq_zero_iff t 'w' (by decide), h]
    decide
  have hc : strncmp t ['c'] 1 = 0 := (strncmp_one_eq_zero_iff t 'c' (by decide)).2 h
  simp [motion, hw, hc]

theorem motion_of_other (s : State) (t : List Char)
    (hw : t.head? ≠ some 'w') (hc : t.head? ≠ some 'c') : motion s t = some s := by
  have h1 : ¬ strncmp t ['w'] 1 = 0 := by
    rw [strncmp_one_eq_zero_iff t 'w' (by decide)]
    exact hw
  have h2 : ¬ strncmp t ['c'] 1 = 0 := by
    rw [strncmp_one_eq_zero_iff t 'c' (by decide)]
    exact hc
  simp [motion, h1, h2]

theorem count_in_count_state (s : State) (n : Int) (hs : s.cur_state = COUNT_STATE) :
    count s n = { s with cur_cnt := n, cur_state := MOTION_STATE } := by
  simp [count, hs]

theorem count_elsewhere (s : State) (n : Int) (hs : s.cur_state ≠ COUNT_STATE) :
    count s n = s := by
  simp [count, hs]

/-- C1. In a state awaiting a count with an operator `f` stored, `count n`
followed by `motion` on the token "w" (scope WORKSPACE) or "c" (scope CLIENT)
calls `f` exactly once, with that scope and the count `n`, and leaves the
grammar awaiting an operator with pending count 1. -/
theorem count_then_motion_dispatches (s : State) (f : Nat) (n : Int) (t : List Char)
    (ty : Scope) (hs : s.cur_state = COUNT_STATE) (hf : s.operator_func = some f)
    (ht : (t = ['w'] ∧ ty = Scope.WORKSPACE) ∨ (t = ['c'] ∧ ty = Scope.CLIENT)) :
    ∃ s1 : State, motion (count s n) t = some s1 ∧
      s1.trace = s.trace ++ [Event.operator_func f ty n] ∧
      s1.cur_state = OPERATOR_STATE ∧ s1.cur_cnt = 1 := by
  rw [count_in_count_state s n hs]
  rcases ht with ⟨rfl, rfl⟩ | ⟨rfl, rfl⟩
  · rw [motion_of_w _ ['w'] rfl]
    simp [motion_dispatch, hf, State.emit]
  · rw [motion_of_c _ ['c'] rfl]
    simp [motion_dispatch, hf, State.emit]

theorem count_then_motion_dispatches_witness :
    (awaiting_count (some 7)).cur_state = COUNT_STATE ∧
    (awaiting_count (some 7)).operator_func = some 7 ∧
    ∃ s1 : State, motion (count (awaiting_count (some 7)) 4) ['w'] = some s1 ∧
      s1.trace = (awaiting_count (some 7)).trace ++
        [Event.operator_func 7 Scope.WORKSPACE 4] ∧
      s1.cur_state = OPERATOR_STATE ∧ s1.cur_cnt = 1 :=
  ⟨rfl, rfl, count_then_motion_dispatches (awaiting_count (some 7)) 7 4 ['w']
    Scope.WORKSPACE rfl rfl (Or.inl ⟨rfl, rfl⟩)⟩

/-- C2, as stated, fails: from the idle grammar (OPERATOR_STATE, pending
count 1) `count 3` is ignored, so the following `motion "c"` hands the operator
the count 1 and not 3. -/
theorem idle_count_three_is_dropped :
    (motion (count (boot (some 7)) 3) ['c']).map State.trace
        = some [Event.operator_func 7 Scope.CLIENT 1] ∧
    (motion (count (boot (some 7)) 3) ['c']).map State.trace
        ≠ some [Event.operator_func 7 Scope.CLIENT 3] := by
  constructor
  · rfl
  · decide

/-- C2, amended. With an operator `f` stored and pending count 1: when the
grammar awaits a count, `count 3` then `motion "c"` calls `f` exactly once with
(CLIENT, 3); when the grammar is idle, `count 3` is ignored and `motion "c"`
calls `f` exactly once with (CLIENT, 1).  Either way the grammar is idle
afterwards with pending count 1. -/
theorem count_three_then_client_motion (s : State) (f : Nat)
    (hc : s.cur_cnt = 1) (hf : s.operator_func = some f) :
    (s.cur_state = COUNT_STATE →
      ∃ s1 : State, motion (count s 3) ['c'] = some s1 ∧
        s1.trace = s.trace ++ [Event.operator_func f Scope.CLIENT 3] ∧
        s1.cur_state = OPERATOR_STATE ∧ s1.cur_cnt = 1) ∧
    (s.cur_state = OPERATOR_STATE →
      ∃ s1 : State, motion (count s 3) ['c'] = some s1 ∧
        s1.trace = s.trace ++ [Event.operator_func f Scope.CLIENT 1] ∧
        s1.cur_state = OPERATOR_STATE ∧ s1.cur_cnt = 1) := by
  constructor
  · intro hs
    rw [count_in_count_state s 3 hs, motion_of_c _ ['c'] rfl]
    simp [motion_dispatch, hf, State.emit]
  · intro hs
    have hne : s.cur_state ≠ COUNT_STATE := by
      rw [hs]
      decide
    rw [count_elsewhere s 3 hne, motion_of_c _ ['c'] rfl]
    simp [motion_dispatch, hf, State.emit, hc]

theorem count_three_then_client_motion_witness :
    (awaiting_count (some 7)).cur_cnt = 1 ∧
    (awaiting_count (some 7)).operator_func = some 7 ∧
    (awaiting_count (some 7)).cur_state = COUNT_STATE ∧
    ∃ s1 : State, motion (count (awaiting_count (some 7)) 3) ['c'] = some s1 ∧
      s1.trace = (awaiting_count (some 7)).trace ++
        [Event.operator_func 7 Scope.CLIENT 3] ∧
      s1.cur_state = OPERATOR_STATE ∧ s1.cur_cnt = 1 :=
  ⟨rfl, rfl, rfl,
    (count_three_then_client_motion (awaiting_count (some 7)) 7 rfl rfl).1 rfl⟩

/-- C3. For every state and every token whose first character is neither
'w' nor 'c' (the empty token included), `motion` returns the state it was
given: no operator call, same grammar state, same pending count. -/
theorem motion_unrecognised_ignored (s : State) (t : List Char)
    (hw : t.head? ≠ some 'w') (hc : t.head? ≠ some 'c') : motion s t = some s :=
  motion_of_other s t hw hc

theorem motion_unrecognised_ignored_witness :
    ([] : List Char).head? ≠ some 'w' ∧ ([] : List Char).head? ≠ some 'c' ∧
    motion (awaiting_count (some 7)) [] = some (awaiting_count (some 7)) :=
  ⟨by decide, by decide,
    motion_unrecognised_ignored (awaiting_count (some 7)) [] (by decide) (by decide)⟩

/-- C4, as stated, fails on an unrecognised token: `motion "x"` alone leaves
the grammar in COUNT_STATE, while `count 1` then `motion "x"` leaves it in
MOTION_STATE. -/
theorem unrecognised_motion_after_count_differs :
    (motion (awaiting_count (some 7)) ['x']).map State.cur_state = some COUNT_STATE ∧
    (motion (count (awaiting_count (some 7)) 1) ['x']).map State.cur_state
      = some MOTION_STATE ∧
    (motion (awaiting_count (some 7)) ['x']).map State.cur_state ≠
      (motion (count (awaiting_count (some 7)) 1) ['x']).map State.cur_state := by
  refine ⟨rfl, rfl, ?_⟩
  decide

/-- C4, amended. From a state awaiting a count with pending count 1: for a
token that begins with 'w' or 'c', `motion t` alone and `count 1` then
`motion t` end in the same state (same operator calls, grammar state and
pending count); for every token the two runs produce the same trace and the
same pending count; for a token that begins with neither, no call is made and
the grammar stays in COUNT_STATE after `motion t` alone but is in MOTION_STATE
after `count 1` then `motion t`. -/
theorem motion_eq_count_one_motion (s : State) (t : List Char)
    (hs : s.cur_state = COUNT_STATE) (hc : s.cur_cnt = 1) :
    ((t.head? = some 'w' ∨ t.head? = some 'c') →
      motion (count s 1) t = motion s t) ∧
    ((motion (count s 1) t).map State.trace = (motion s t).map State.trace ∧
      (motion (count s 1) t).map State.cur_cnt = (motion s t).map State.cur_cnt) ∧
    ((t.head? ≠ some 'w' ∧ t.head? ≠ some 'c') →
      motion s t = some s ∧
      motion (count s 1) t = some { s with cur_cnt := 1, cur_state := MOTION_STATE }) := by
  rw [count_in_count_state s 1 hs]
  have hrec : ∀ ty : Scope,
      motion_dispatch { s with cur_cnt := 1, cur_state := MOTION_STATE } ty
        = motion_dispatch s ty := by
    intro ty
    cases hf : s.operator_func with
    | none => simp [motion_dispatch, hf]
    | some f => simp [motion_dispatch, hf, State.emit, hc]
  by_cases hw : t.head? = some 'w'
  · have e : motion { s with cur_cnt := 1, cur_state := MOTION_STATE } t = motion s t := by
      rw [motion_of_w _ t hw, motion_of_w _ t hw, hrec]
    refine ⟨fun _ => e, ⟨by rw [e], by rw [e]⟩, ?_⟩
    intro h
    exact absurd hw h.1
  · by_cases hcc : t.head? = some 'c'
    · have e : motion { s with cur_cnt := 1, cur_state := MOTION_STATE } t = motion s t := by
        rw [motion_of_c _ t hcc, motion_of_c _ t hcc, hrec]
      refine ⟨fun _ => e, ⟨by rw [e], by rw [e]⟩, ?_⟩
      intro h
      exact absurd hcc h.2
    · rw [motion_of_other _ t hw hcc, motion_of_other _ t hw hcc]
      refine ⟨?_, ⟨rfl, ?_⟩, fun _ => ⟨rfl, rfl⟩⟩
      · intro h
        rcases h with h | h
        · exact absurd h hw
        · exact absurd h hcc
      · simp [hc]

theorem motion_eq_count_one_motion_witness :
    (awaiting_count (some 7)).cur_state = COUNT_STATE ∧
    (awaiting_count (some 7)).cur_cnt = 1 ∧
    motion (count (awaiting_count (some 7)) 1) ['c'] = motion (awaiting_count (some 7)) ['c'] :=
  ⟨rfl, rfl,
    (motion_eq_count_one_motion (awaiting_count (some 7)) ['c'] rfl rfl).1 (Or.inr rfl)⟩

theorem dispatched_counts_append (a b : List Event) :
    dispatched_counts (a ++ b) = dispatched_counts a ++ dispatched_counts b := by
  induction a with
  | nil => rfl
  | cons e es ih =>
    cases e <;> simp [dispatched_counts, ih]

theorem step_keeps_count_pos (s : State) (f : Nat) (c : Call)
    (hf : s.operator_func = some f) (hcnt : 1 ≤ s.cur_cnt)
    (harg : ∀ n, c = Call.count n → 1 ≤ n) :
    ∃ s1 : State, step s c = some s1 ∧ s1.operator_func = some f ∧ 1 ≤ s1.cur_cnt ∧
      ∃ new : List Event, s1.trace = s.trace ++ new ∧
        ∀ k ∈ dispatched_counts new, 1 ≤ k := by
  cases c with
  | count n =>
    refine ⟨count s n, rfl, ?_, ?_, [], ?_, ?_⟩
    · unfold count
      split <;> simp [hf]
    · unfold count
      split
      · exact hcnt
      · exact harg n rfl
    · unfold count
      split <;> simp
    · intro k hk
      simp [dispatched_counts] at hk
  | motion t =>
    have hd : ∀ ty : Scope, ∃ s1 : State, motion_dispatch s ty = some s1 ∧
        s1.operator_func = some f ∧ 1 ≤ s1.cur_cnt ∧
        ∃ new : List Event, s1.trace = s.trace ++ new ∧
          ∀ k ∈ dispatched_counts new, 1 ≤ k := by
      intro ty
      refine ⟨{ s.emit (Event.operator_func f ty s.cur_cnt) with
          cur_state := OPERATOR_STATE, cur_cnt := 1 },
        by simp only [motion_dispatch, hf], ?_, ?_,
        [Event.operator_func f ty s.cur_cnt], ?_, ?_⟩
      · simp [State.emit, hf]
      · simp
      · simp [State.emit]
      · intro k hk
        simp [dispatched_counts] at hk
        rw [hk]
        exact hcnt
    simp only [step]
    by_cases hw : t.head? = some 'w'
    · rw [motion_of_w _ t hw]
      exact hd _
    · by_cases hc : t.head? = some 'c'
      · rw [motion_of_c _ t hc]
        exact hd _
      · rw [motion_of_other _ t hw hc]
        refine ⟨s, rfl, hf, hcnt, [], by simp, ?_⟩
        intro k hk
        simp [dispatched_counts] at hk

/-- C5, as stated, fails: awaiting a count with pending count 1, `count 0`
stores 0, and the next `motion "w"` hands the operator the count 0. -/
theorem count_zero_breaks_lower_bound :
    (awaiting_count (some 7)).cur_cnt = 1 ∧
    (run (awaiting_count (some 7)) [Call.count 0]).map State.cur_cnt = some 0 ∧
    (run (awaiting_count (some 7)) [Call.count 0, Call.motion ['w']]).map State.trace
      = some [Event.operator_func 7 Scope.WORKSPACE 0] ∧
    ¬ ((1 : Int) ≤ 0) := by
  refine ⟨rfl, rfl, rfl, ?_⟩
  decide

/-- C5, amended. From any grammar state with an operator stored and pending
count at least 1, every sequence of `count` and `motion` calls in which each
argument of `count` is at least 1 runs to completion, ends with pending count
at least 1, and hands the operator only counts that are at least 1. -/
theorem pending_count_pos (s : State) (f : Nat) (calls : List Call)
    (hf : s.operator_func = some f) (hcnt : 1 ≤ s.cur_cnt)
    (hargs : ∀ n, Call.count n ∈ calls → 1 ≤ n) :
    ∃ s1 : State, run s calls = some s1 ∧ 1 ≤ s1.cur_cnt ∧
      ∃ new : List Event, s1.trace = s.trace ++ new ∧
        ∀ k ∈ dispatched_counts new, 1 ≤ k := by
  induction calls generalizing s with
  | nil =>
    refine ⟨s, rfl, hcnt, [], by simp, ?_⟩
    intro k hk
    simp [dispatched_counts] at hk
  | cons c cs ih =>
    obtain ⟨s1, h1, hf1, hc1, new1, ht1, hn1⟩ :=
      step_keeps_count_pos s f c hf hcnt (fun n hn => hargs n (by simp [hn]))
    obtain ⟨s2, h2, hc2, new2, ht2, hn2⟩ :=
      ih s1 hf1 hc1 (fun n hn => hargs n (by simp [hn]))
    refine ⟨s2, by simp [run, h1, h2], hc2, new1 ++ new2, ?_, ?_⟩
    · rw [ht2, ht1, List.append_assoc]
    · intro k hk
      rw [dispatched_counts_append] at hk
      rcases List.mem_append.1 hk with h | h
      · exact hn1 k h
      · exact hn2 k h

theorem pending_count_pos_witness :
    (awaiting_count (some 7)).operator_func = some 7 ∧
    1 ≤ (awaiting_count (some 7)).cur_cnt ∧
    (∀ n, Call.count n ∈ [Call.count 2, Call.motion ['c']] → 1 ≤ n) ∧
    ∃ s1 : State, run (awaiting_count (some 7)) [Call.count 2, Call.motion ['c']] = some s1 ∧
      1 ≤ s1.cur_cnt ∧
      ∃ new : List Event, s1.trace = (awaiting_count (some 7)).trace ++ new ∧
        ∀ k ∈ dispatched_counts new, 1 ≤ k :=
  ⟨rfl, by decide, by simp,
    pending_count_pos (awaiting_count (some 7)) 7 [Call.count 2, Call.motion ['c']]
      rfl (by decide) (by simp)⟩

/-! ## Modes: theorems -/

theorem change_mode_rejects_high_or_same (s : State) (mode : Int)
    (h : END_MODES ≤ mode ∨ mode = to_int s.cur_mode) : change_mode s mode = s := by
  unfold change_mode
  rw [if_pos]
  rcases h with h | h
  · exact Or.inl h
  · exact Or.inr h

/-- C6 fails on the code for a negative mode: in mode NORMAL, `change_mode (-1)`
passes both tests of the guard and stores -1 into the unsigned `cur_mode`,
which then reads 4294967295, outside NORMAL, FOCUS, FLOATING. -/
theorem change_mode_stores_negative :
    (boot none).cur_mode = 0 ∧
    (change_mode (boot none) (-1)).cur_mode = 4294967295 ∧
    to_int (change_mode (boot none) (-1)).cur_mode = -1 ∧
    ¬ ((change_mode (boot none) (-1)).cur_mode < 3) := by
  refine ⟨rfl, ?_, ?_, ?_⟩ <;> decide

/-! ## Binary floating point: lemmas -/

theorem pow2_eq_zpow (z : Int) : pow2 z = (2 : ℚ) ^ z := by
  unfold pow2
  split
  · rename_i h
    have hz : ((z.toNat : Nat) : Int) = z := Int.toNat_of_nonneg h
    rw [Nat.cast_pow, Nat.cast_ofNat, ← zpow_natCast, hz]
  · rename_i h
    have hz : (((-z).toNat : Nat) : Int) = -z := Int.toNat_of_nonneg (by omega)
    have h2 : (2 : ℚ) ^ z = ((2 : ℚ) ^ (-z))⁻¹ := by
      rw [zpow_neg, inv_inv]
    rw [Nat.cast_pow, Nat.cast_ofNat, ← zpow_natCast, hz, h2, one_div]

theorem pow2_pos (z : Int) : 0 < pow2 z := by
  rw [pow2_eq_zpow]
  positivity

theorem log2_fuel_spec (fuel n : Nat) (hf : n ≤ fuel) (hn : 0 < n) :
    2 ^ log2_fuel fuel n ≤ n ∧ n < 2 ^ (log2_fuel fuel n + 1) := by
  induction fuel generalizing n with
  | zero => omega
  | succ fuel ih =>
    unfold log2_fuel
    split
    · rename_i h2
      obtain ⟨h3, h4⟩ := ih (n / 2) (by omega) (by omega)
      constructor
      · rw [pow_succ]
        omega
      · rw [pow_succ] at h4 ⊢
        omega
    · rename_i h2
      simp
      omega

theorem ilog2_spec (n : Nat) (hn : 0 < n) : 2 ^ ilog2 n ≤ n ∧ n < 2 ^ (ilog2 n + 1) :=
  log2_fuel_spec n n (Nat.le_refl n) hn

theorem floor_log2_le (a : ℚ) (ha : 0 < a) : (2 : ℚ) ^ floor_log2 a ≤ a := by
  have hnum : 0 < a.num := Rat.num_pos.2 ha
  have hn : 0 < a.num.natAbs := Int.natAbs_pos.2 (ne_of_gt hnum)
  have hd : 0 < a.den := a.den_pos
  have hcast : ((a.num.natAbs : Nat) : ℚ) = (a.num : ℚ) := by
    rw [← Int.cast_natCast, Int.natAbs_of_nonneg (le_of_lt hnum)]
  have ha_eq : a = ((a.num.natAbs : Nat) : ℚ) / ((a.den : Nat) : ℚ) := by
    rw [hcast]
    exact (Rat.num_div_den a).symm
  obtain ⟨hA, _⟩ := ilog2_spec a.num.natAbs hn
  obtain ⟨_, hB⟩ := ilog2_spec a.den hd
  unfold floor_log2
  simp only
  split
  · rename_i h
    rw [← pow2_eq_zpow]
    exact h
  · have hA' : ((2 : ℚ) ^ ilog2 a.num.natAbs) ≤ ((a.num.natAbs : Nat) : ℚ) := by
      exact_mod_cast hA
    have hB' : ((a.den : Nat) : ℚ) < (2 : ℚ) ^ (ilog2 a.den + 1) := by
      exact_mod_cast hB
    have hdq : (0 : ℚ) < ((a.den : Nat) : ℚ) := by exact_mod_cast hd
    have hexp : (2 : ℚ) ^ ((ilog2 a.num.natAbs : Int) - (ilog2 a.den : Int) - 1)
        = (2 : ℚ) ^ ilog2 a.num.natAbs / (2 : ℚ) ^ (ilog2 a.den + 1) := by
      have e1 : ((ilog2 a.num.natAbs : Int) - (ilog2 a.den : Int) - 1)
          = (ilog2 a.num.natAbs : Int) - ((ilog2 a.den + 1 : Nat) : Int) := by
        push_cast
        ring
      rw [e1, zpow_sub₀ (by norm_num : (2 : ℚ) ≠ 0), zpow_natCast, zpow_natCast]
    rw [hexp]
    have hpos : (0 : ℚ) < (2 : ℚ) ^ (ilog2 a.den + 1) := by positivity
    calc (2 : ℚ) ^ ilog2 a.num.natAbs / (2 : ℚ) ^ (ilog2 a.den + 1)
        ≤ ((a.num.natAbs : Nat) : ℚ) / (2 : ℚ) ^ (ilog2 a.den + 1) :=
          div_le_div_of_nonneg_right hA' (le_of_lt hpos)
      _ ≤ ((a.num.natAbs : Nat) : ℚ) / ((a.den : Nat) : ℚ) :=
          div_le_div_of_nonneg_left (by positivity) hdq (le_of_lt hB')
      _ = a := ha_eq.symm

theorem floor_log2_lt (a : ℚ) (ha : 0 < a) (m : Int) (h : a < (2 : ℚ) ^ m) :
    floor_log2 a < m := by
  have h1 := floor_log2_le a ha
  have h2 : (2 : ℚ) ^ floor_log2 a < (2 : ℚ) ^ m := lt_of_le_of_lt h1 h
  exact (zpow_lt_zpow_iff_right₀ (by norm_num : (1 : ℚ) < 2)).1 h2

theorem round_half_even_err (m : ℚ) : |((round_half_even m : Int) : ℚ) - m| ≤ 1 / 2 := by
  have h1 : ((⌊m⌋ : Int) : ℚ) ≤ m := Int.floor_le m
  have h2 : m < ((⌊m⌋ : Int) : ℚ) + 1 := Int.lt_floor_add_one m
  unfold round_half_even
  split
  · rename_i h
    rw [abs_le]
    constructor <;> linarith
  · rename_i h
    split
    · rename_i h3
      push_cast
      rw [abs_le]
      constructor <;> linarith
    · rename_i h3
      have hf : m - ((⌊m⌋ : Int) : ℚ) = 1 / 2 := le_antisymm (not_lt.1 h3) (not_lt.1 h)
      split
      · rw [abs_le]
        constructor <;> linarith
      · push_cast
        rw [abs_le]
        constructor <;> linarith

theorem floor_le_round_half_even (m : ℚ) : ⌊m⌋ ≤ round_half_even m := by
  unfold round_half_even
  split
  · exact le_refl _
  · split
    · omega
    · split <;> omega

theorem le_round_half_even (m : ℚ) (K : Int) (h : (K : ℚ) ≤ m) : K ≤ round_half_even m :=
  le_trans (Int.le_floor.2 h) (floor_le_round_half_even m)

theorem round_half_even_int (K : Int) : round_half_even (K : ℚ) = K := by
  unfold round_half_even
  rw [Int.floor_intCast, sub_self, if_pos (by norm_num)]

theorem round_binary_nonneg (prec : Nat) (emin : Int) (q : ℚ) (hq : 0 ≤ q) :
    0 ≤ round_binary prec emin q := by
  unfold round_binary
  split
  · exact le_refl _
  · simp only
    rw [if_neg (not_lt.2 hq)]
    apply mul_nonneg
    · have : (0 : Int) ≤ round_half_even (|q| / pow2 (max (floor_log2 |q|) emin - ((prec : Int) - 1))) :=
        le_round_half_even _ 0 (by
          push_cast
          exact div_nonneg (abs_nonneg q) (le_of_lt (pow2_pos _)))
      exact_mod_cast this
    · exact le_of_lt (pow2_pos _)

theorem round_binary_neg (prec : Nat) (emin : Int) (q : ℚ) :
    round_binary prec emin (-q) = -round_binary prec emin q := by
  unfold round_binary
  by_cases h0 : q = 0
  · subst h0
    simp
  · have h1 : -q ≠ 0 := neg_ne_zero.2 h0
    rw [if_neg h0, if_neg h1]
    simp only [abs_neg]
    rcases lt_or_gt_of_ne h0 with h | h
    · rw [if_pos h, if_neg (not_lt.2 (by linarith : (0 : ℚ) ≤ -q)), neg_neg]
    · rw [if_neg (not_lt.2 (le_of_lt h)), if_pos (by linarith : -q < 0)]

theorem round_binary_of_pos (prec : Nat) (emin : Int) (q : ℚ) (hq : 0 < q) :
    round_binary prec emin q
      = ((round_half_even (q / pow2 (max (floor_log2 q) emin - ((prec : Int) - 1))) : Int) : ℚ)
        * pow2 (max (floor_log2 q) emin - ((prec : Int) - 1)) := by
  unfold round_binary
  rw [if_neg (ne_of_gt hq)]
  simp only
  rw [if_neg (not_lt.2 (le_of_lt hq)), abs_of_pos hq]

theorem round_binary_err_pos (prec : Nat) (emin : Int) (q : ℚ) (hq : 0 < q) :
    |round_binary prec emin q - q|
      ≤ pow2 (max (floor_log2 q) emin - ((prec : Int) - 1)) / 2 := by
  rw [round_binary_of_pos prec emin q hq]
  have hw := pow2_pos (max (floor_log2 q) emin - ((prec : Int) - 1))
  have h := round_half_even_err (q / pow2 (max (floor_log2 q) emin - ((prec : Int) - 1)))
  have e : ((round_half_even (q / pow2 (max (floor_log2 q) emin - ((prec : Int) - 1))) : Int) : ℚ)
      * pow2 (max (floor_log2 q) emin - ((prec : Int) - 1)) - q
      = (((round_half_even (q / pow2 (max (floor_log2 q) emin - ((prec : Int) - 1))) : Int) : ℚ)
        - q / pow2 (max (floor_log2 q) emin - ((prec : Int) - 1)))
        * pow2 (max (floor_log2 q) emin - ((prec : Int) - 1)) := by
    field_simp
  rw [e, abs_mul, abs_of_pos hw]
  calc _ ≤ 1 / 2 * pow2 (max (floor_log2 q) emin - ((prec : Int) - 1)) :=
        mul_le_mul_of_nonneg_right h (le_of_lt hw)
    _ = pow2 (max (floor_log2 q) emin - ((prec : Int) - 1)) / 2 := by ring

theorem fl32_neg (q : ℚ) : fl32 (-q) = -fl32 q := round_binary_neg 24 (-126) q

theorem fl32_zero : fl32 0 = 0 := by
  unfold fl32 round_binary
  rw [if_pos rfl]

theorem fl32_abs (q : ℚ) : |fl32 q| = fl32 |q| := by
  rcases le_or_lt 0 q with h | h
  · rw [abs_of_nonneg h]
    exact abs_of_nonneg (round_binary_nonneg 24 (-126) q h)
  · have h2 : 0 ≤ fl32 (-q) := round_binary_nonneg 24 (-126) (-q) (by linarith)
    rw [abs_of_neg h]
    rw [fl32_neg] at h2 ⊢
    exact abs_of_nonpos (by linarith)

theorem fl32_err_small_pos (q : ℚ) (h0 : 0 < q) (h1 : q < 1) :
    |fl32 q - q| ≤ 1 / 2 ^ 25 := by
  have he : floor_log2 q < 0 := floor_log2_lt q h0 0 (by simpa using h1)
  have hz : max (floor_log2 q) (-126) - (((24 : Nat) : Int) - 1) ≤ -24 := by
    have : max (floor_log2 q) (-126) ≤ -1 := max_le (by omega) (by norm_num)
    push_cast
    omega
  have hw : pow2 (max (floor_log2 q) (-126) - (((24 : Nat) : Int) - 1)) ≤ 1 / 2 ^ 24 := by
    rw [pow2_eq_zpow]
    calc (2 : ℚ) ^ (max (floor_log2 q) (-126) - (((24 : Nat) : Int) - 1))
        ≤ (2 : ℚ) ^ (-24 : Int) := zpow_le_zpow_right₀ (by norm_num) hz
      _ = 1 / 2 ^ 24 := by norm_num
  have h := round_binary_err_pos 24 (-126) q h0
  unfold fl32
  calc |round_binary 24 (-126) q - q|
      ≤ pow2 (max (floor_log2 q) (-126) - (((24 : Nat) : Int) - 1)) / 2 := h
    _ ≤ (1 / 2 ^ 24) / 2 := by linarith
    _ = 1 / 2 ^ 25 := by norm_num

theorem fl32_err_small (q : ℚ) (h : |q| < 1) : |fl32 q - q| ≤ 1 / 2 ^ 25 := by
  rcases lt_trichotomy q 0 with hq | hq | hq
  · have h1 : -q < 1 := by
      rw [abs_of_neg hq] at h
      exact h
    have h2 := fl32_err_small_pos (-q) (by linarith) h1
    rw [fl32_neg] at h2
    have e : -fl32 q - -q = -(fl32 q - q) := by ring
    rw [e, abs_neg] at h2
    exact h2
  · subst hq
    rw [fl32_zero]
    norm_num
  · rw [abs_of_pos hq] at h
    exact fl32_err_small_pos q hq h

theorem fl32_ge_two_pow_pos (m : Nat) (q : ℚ) (h : (2 : ℚ) ^ m ≤ q) : (2 : ℚ) ^ m ≤ fl32 q := by
  have hq : 0 < q := lt_of_lt_of_le (by positivity) h
  have hle := floor_log2_le q hq
  unfold fl32
  rw [round_binary_of_pos 24 (-126) q hq, pow2_eq_zpow]
  have hw : (0 : ℚ) < (2 : ℚ) ^ (max (floor_log2 q) (-126) - (((24 : Nat) : Int) - 1)) := by
    positivity
  rcases le_or_lt (max (floor_log2 q) (-126) - (((24 : Nat) : Int) - 1)) (m : Int) with hz | hz
  · -- the quantum divides `2 ^ m`
    obtain ⟨j, hj⟩ : ∃ j : Nat, (j : Int)
        = (m : Int) - (max (floor_log2 q) (-126) - (((24 : Nat) : Int) - 1)) :=
      ⟨((m : Int) - (max (floor_log2 q) (-126) - (((24 : Nat) : Int) - 1))).toNat,
        Int.toNat_of_nonneg (by omega)⟩
    have hsplit : (2 : ℚ) ^ m = (2 : ℚ) ^ j
        * (2 : ℚ) ^ (max (floor_log2 q) (-126) - (((24 : Nat) : Int) - 1)) := by
      rw [← zpow_natCast, ← zpow_natCast, ← zpow_add₀ (by norm_num : (2 : ℚ) ≠ 0), hj]
      congr 1
      ring
    have hK : (((2 ^ j : Nat) : Int) : ℚ)
        ≤ q / (2 : ℚ) ^ (max (floor_log2 q) (-126) - (((24 : Nat) : Int) - 1)) := by
      have hcastK : (((2 ^ j : Nat) : Int) : ℚ) = (2 : ℚ) ^ j := by norm_cast
      rw [le_div_iff₀ hw, hcastK, ← hsplit]
      exact h
    have hk := le_round_half_even _ _ hK
    have hk' : ((2 : ℚ) ^ j) ≤ ((round_half_even
        (q / (2 : ℚ) ^ (max (floor_log2 q) (-126) - (((24 : Nat) : Int) - 1))) : Int) : ℚ) := by
      exact_mod_cast hk
    rw [hsplit]
    exact mul_le_mul_of_nonneg_right hk' (le_of_lt hw)
  · -- the quantum exceeds `2 ^ m`: the exponent is that of `q`
    have hmax : max (floor_log2 q) (-126) = floor_log2 q := by
      apply max_eq_left
      push_cast at hz
      by_contra hc
      rw [max_eq_right (by omega)] at hz
      omega
    have hwq : (2 : ℚ) ^ (max (floor_log2 q) (-126) - (((24 : Nat) : Int) - 1)) ≤ q := by
      rw [hmax]
      calc (2 : ℚ) ^ (floor_log2 q - (((24 : Nat) : Int) - 1))
          ≤ (2 : ℚ) ^ floor_log2 q := zpow_le_zpow_right₀ (by norm_num) (by push_cast; omega)
        _ ≤ q := hle
    have hK : (((1 : Int)) : ℚ)
        ≤ q / (2 : ℚ) ^ (max (floor_log2 q) (-126) - (((24 : Nat) : Int) - 1)) := by
      rw [le_div_iff₀ hw, Int.cast_one, one_mul]
      exact hwq
    have hk := le_round_half_even _ _ hK
    have hk' : (1 : ℚ) ≤ ((round_half_even
        (q / (2 : ℚ) ^ (max (floor_log2 q) (-126) - (((24 : Nat) : Int) - 1))) : Int) : ℚ) := by
      exact_mod_cast hk
    have hm : (2 : ℚ) ^ m
        ≤ (2 : ℚ) ^ (max (floor_log2 q) (-126) - (((24 : Nat) : Int) - 1)) := by
      rw [← zpow_natCast]
      exact zpow_le_zpow_right₀ (by norm_num) (le_of_lt hz)
    calc (2 : ℚ) ^ m
        ≤ 1 * (2 : ℚ) ^ (max (floor_log2 q) (-126) - (((24 : Nat) : Int) - 1)) := by
          rw [one_mul]
          exact hm
      _ ≤ _ := mul_le_mul_of_nonneg_right hk' (le_of_lt hw)

theorem fl32_ge_two_pow (m : Nat) (q : ℚ) (h : (2 : ℚ) ^ m ≤ |q|) : (2 : ℚ) ^ m ≤ |fl32 q| := by
  rw [fl32_abs]
  exact fl32_ge_two_pow_pos m |q| h

theorem fl32_int_exact_pos (n : Int) (h0 : 0 < n) (h1 : n < 2 ^ 24) : fl32 (n : ℚ) = n := by
  have hq : (0 : ℚ) < (n : ℚ) := by exact_mod_cast h0
  have hlt : (n : ℚ) < (2 : ℚ) ^ (24 : Int) := by
    have : (n : ℚ) < ((2 ^ 24 : Int) : ℚ) := by exact_mod_cast h1
    norm_num at this ⊢
    exact this
  have he : floor_log2 (n : ℚ) < 24 := floor_log2_lt (n : ℚ) hq 24 hlt
  have hz : max (floor_log2 (n : ℚ)) (-126) - (((24 : Nat) : Int) - 1) ≤ 0 := by
    have : max (floor_log2 (n : ℚ)) (-126) ≤ 23 := max_le (by omega) (by norm_num)
    push_cast
    omega
  obtain ⟨j, hj⟩ : ∃ j : Nat, (j : Int)
      = -(max (floor_log2 (n : ℚ)) (-126) - (((24 : Nat) : Int) - 1)) :=
    ⟨(-(max (floor_log2 (n : ℚ)) (-126) - (((24 : Nat) : Int) - 1))).toNat,
      Int.toNat_of_nonneg (by omega)⟩
  have hzj : max (floor_log2 (n : ℚ)) (-126) - (((24 : Nat) : Int) - 1) = -(j : Int) := by
    rw [hj, neg_neg]
  unfold fl32
  rw [round_binary_of_pos 24 (-126) (n : ℚ) hq, pow2_eq_zpow, hzj, zpow_neg, zpow_natCast]
  have hpos : (0 : ℚ) < (2 : ℚ) ^ j := by positivity
  have hdiv : (n : ℚ) / ((2 : ℚ) ^ j)⁻¹ = ((n * 2 ^ j : Int) : ℚ) := by
    rw [div_inv_eq_mul]
    push_cast
    ring
  rw [hdiv, round_half_even_int]
  push_cast
  field_simp

theorem fl32_int_exact (n : Int) (h : |n| < 2 ^ 24) : fl32 (n : ℚ) = n := by
  rcases lt_trichotomy n 0 with hn | hn | hn
  · have h1 : -n < 2 ^ 24 := by
      rw [abs_of_neg hn] at h
      exact h
    have h2 := fl32_int_exact_pos (-n) (by omega) h1
    push_cast at h2
    rw [fl32_neg] at h2
    linarith
  · subst hn
    simpa using fl32_zero
  · rw [abs_of_pos hn] at h
    exact fl32_int_exact_pos n hn h

theorem master_sum_error (r : ℚ) (ds : Int) (hr0 : 0 < r) (hr1 : r < 1)
    (hlo : 0 < fl32 (r + fl32 (fl32 (ds : ℚ) / 100)))
    (hhi : fl32 (r + fl32 (fl32 (ds : ℚ) / 100)) < 1) :
    |fl32 (r + fl32 (fl32 (ds : ℚ) / 100)) - (r + (ds : ℚ) / 100)| ≤ 1 / 2 ^ 24 := by
  -- the exact sum of the two floats is in (0, 1)
  have hx0 : 0 < r + fl32 (fl32 (ds : ℚ) / 100) := by
    by_contra hc
    have h1 : 0 ≤ fl32 (-(r + fl32 (fl32 (ds : ℚ) / 100))) :=
      round_binary_nonneg 24 (-126) _ (by linarith)
    rw [fl32_neg] at h1
    linarith
  have hx1 : r + fl32 (fl32 (ds : ℚ) / 100) < 1 := by
    by_contra hc
    have h1 := fl32_ge_two_pow_pos 0 (r + fl32 (fl32 (ds : ℚ) / 100)) (by
      rw [pow_zero]
      linarith)
    rw [pow_zero] at h1
    linarith
  have hex : |fl32 (r + fl32 (fl32 (ds : ℚ) / 100)) - (r + fl32 (fl32 (ds : ℚ) / 100))|
      ≤ 1 / 2 ^ 25 :=
    fl32_err_small _ (by rw [abs_of_pos hx0]; exact hx1)
  -- so the change is below 1 in magnitude, and so is the quotient
  have hc : |fl32 (fl32 (ds : ℚ) / 100)| < 1 := by
    rw [abs_lt]
    constructor <;> linarith
  have hc1 : |fl32 (ds : ℚ) / 100| < 1 := by
    by_contra hcon
    have h1 := fl32_ge_two_pow 0 (fl32 (ds : ℚ) / 100) (by
      rw [pow_zero]
      linarith)
    rw [pow_zero] at h1
    linarith
  -- hence `ds` is small and `(float)ds` is exact
  have hf : |fl32 (ds : ℚ)| < 100 := by
    rw [abs_div] at hc1
    have h100 : |(100 : ℚ)| = 100 := abs_of_pos (by norm_num)
    rw [h100, div_lt_one (by norm_num)] at hc1
    exact hc1
  have hds : |ds| < 2 ^ 7 := by
    by_contra hcon
    have h2 : (2 : ℚ) ^ 7 ≤ |(ds : ℚ)| := by
      have : ((2 ^ 7 : Int) : ℚ) ≤ ((|ds| : Int) : ℚ) := by exact_mod_cast not_lt.1 hcon
      simpa using this
    have h1 := fl32_ge_two_pow 7 (ds : ℚ) h2
    norm_num at h1
    linarith
  have hexact : fl32 (ds : ℚ) = ds := fl32_int_exact ds (by
    have : (2 : Int) ^ 7 < 2 ^ 24 := by norm_num
    omega)
  rw [hexact] at hc1 hex ⊢
  have hch : |fl32 ((ds : ℚ) / 100) - (ds : ℚ) / 100| ≤ 1 / 2 ^ 25 := fl32_err_small _ hc1
  have e : fl32 (r + fl32 ((ds : ℚ) / 100)) - (r + (ds : ℚ) / 100)
      = (fl32 (r + fl32 ((ds : ℚ) / 100)) - (r + fl32 ((ds : ℚ) / 100)))
        + (fl32 ((ds : ℚ) / 100) - (ds : ℚ) / 100) := by ring
  rw [e]
  calc _ ≤ |fl32 (r + fl32 ((ds : ℚ) / 100)) - (r + fl32 ((ds : ℚ) / 100))|
        + |fl32 ((ds : ℚ) / 100) - (ds : ℚ) / 100| := abs_add _ _
    _ ≤ 1 / 2 ^ 25 + 1 / 2 ^ 25 := add_le_add hex hch
    _ = 1 / 2 ^ 24 := by norm_num

/-! ## Master ratio: theorems -/

theorem double_tenth_gt : (1 : ℚ) / 10 < double_tenth := by decide!

theorem resize_master_cw (L : Layouts) (s : State) (ds : Int) :
    (resize_master L s ds).cw = s.cw := by
  unfold resize_master
  split
  · rfl
  · simp only
    split <;> rfl

/-- C8, as stated, fails: the code computes in `float`.  Under a stack layout,
from the ratio 0.6f = 5033165/8388608, `resize_master 5` stores
10905191/16777216, which is not `r + 5/100`; and from the ratio 0.51f,
`resize_master 49` changes nothing although `r + 49/100` is strictly between
0.1 and 1.0, because the `float` sum rounds to 1. -/
theorem resize_master_stores_rounded_sum :
    (stack_state (fl32 (6 / 10))).cur_ws.layout = sample_layouts.HSTACK ∧
    (stack_state (fl32 (6 / 10))).cur_ws.master_ratio = 5033165 / 8388608 ∧
    (resize_master sample_layouts (stack_state (fl32 (6 / 10))) 5).cur_ws.master_ratio
      = 10905191 / 16777216 ∧
    (resize_master sample_layouts (stack_state (fl32 (6 / 10))) 5).cur_ws.master_ratio
      ≠ (stack_state (fl32 (6 / 10))).cur_ws.master_ratio + ((5 : Int) : ℚ) / 100 ∧
    (1 / 10 < fl32 (51 / 100) + ((49 : Int) : ℚ) / 100 ∧
      fl32 (51 / 100) + ((49 : Int) : ℚ) / 100 < 1) ∧
    (resize_master sample_layouts (stack_state (fl32 (51 / 100))) 49).cur_ws.master_ratio
      = fl32 (51 / 100) := by
  refine ⟨rfl, ?_, ?_, ?_, ⟨?_, ?_⟩, ?_⟩ <;> decide!

/-- C8, amended. `resize_master ds` changes the ratio only under the two stack
layouts: under a layout that is neither HSTACK nor VSTACK it returns the state
it was given, for every `ds`; under HSTACK or VSTACK, when the `float` sum of
the ratio `r` and the `float` quotient `ds / 100` is strictly between the
`double` 0.1 and 1, the new ratio of the current workspace is exactly that
`float` sum, and for `r` in (0.1, 1.0) it is within `2 ^ -24` of
`r + ds/100`. -/
theorem resize_master_only_in_stack_layouts (L : Layouts) (s : State) (ds : Int) :
    ((s.cur_ws.layout ≠ L.HSTACK ∧ s.cur_ws.layout ≠ L.VSTACK) →
      resize_master L s ds = s) ∧
    ((s.cur_ws.layout = L.HSTACK ∨ s.cur_ws.layout = L.VSTACK) →
      double_tenth < fl32 (s.cur_ws.master_ratio + fl32 (fl32 (ds : ℚ) / 100)) →
      fl32 (s.cur_ws.master_ratio + fl32 (fl32 (ds : ℚ) / 100)) < 1 →
      (resize_master L s ds).cur_ws.master_ratio
          = fl32 (s.cur_ws.master_ratio + fl32 (fl32 (ds : ℚ) / 100)) ∧
        (1 / 10 < s.cur_ws.master_ratio → s.cur_ws.master_ratio < 1 →
          |(resize_master L s ds).cur_ws.master_ratio
            - (s.cur_ws.master_ratio + (ds : ℚ) / 100)| ≤ 1 / 2 ^ 24)) := by
  constructor
  · intro h
    unfold resize_master
    rw [if_pos h]
  · intro hl hlo hhi
    have hl2 : ¬ (s.cur_ws.layout ≠ L.HSTACK ∧ s.cur_ws.layout ≠ L.VSTACK) := by
      intro h
      rcases hl with hl | hl
      · exact h.1 hl
      · exact h.2 hl
    have hr : ¬ (fl32 (s.cur_ws.master_ratio + fl32 (fl32 (ds : ℚ) / 100)) ≥ 1 ∨
        fl32 (s.cur_ws.master_ratio + fl32 (fl32 (ds : ℚ) / 100)) ≤ double_tenth) := by
      intro h
      rcases h with h | h
      · exact absurd hhi (not_lt.2 h)
      · exact absurd hlo (not_lt.2 h)
    have hnew : (resize_master L s ds).cur_ws.master_ratio
        = fl32 (s.cur_ws.master_ratio + fl32 (fl32 (ds : ℚ) / 100)) := by
      unfold resize_master
      rw [if_neg hl2]
      simp only
      rw [if_neg hr]
      simp only [State.emit, State.set_cur_ws, State.cur_ws, Function.update_same]
    refine ⟨hnew, ?_⟩
    intro hr0 hr1
    rw [hnew]
    have hgt := double_tenth_gt
    exact master_sum_error s.cur_ws.master_ratio ds (by linarith) hr1 (by linarith) hhi

theorem resize_master_only_in_stack_layouts_witness :
    (resize_master sample_layouts (boot_in_layout 0) 5 = boot_in_layout 0) ∧
    (boot_in_layout 2).cur_ws.layout = sample_layouts.VSTACK ∧
    (1 / 10 < (boot_in_layout 2).cur_ws.master_ratio ∧
      (boot_in_layout 2).cur_ws.master_ratio < 1) ∧
    (resize_master sample_layouts (boot_in_layout 2) 5).cur_ws.master_ratio
      = fl32 ((boot_in_layout 2).cur_ws.master_ratio + fl32 (fl32 ((5 : Int) : ℚ) / 100)) ∧
    |(resize_master sample_layouts (boot_in_layout 2) 5).cur_ws.master_ratio
      - ((boot_in_layout 2).cur_ws.master_ratio + ((5 : Int) : ℚ) / 100)| ≤ 1 / 2 ^ 24 :=
  have hr0 : 1 / 10 < (boot_in_layout 2).cur_ws.master_ratio := by decide!
  have hr1 : (boot_in_layout 2).cur_ws.master_ratio < 1 := by decide!
  ⟨(resize_master_only_in_stack_layouts sample_layouts (boot_in_layout 0) 5).1
      (by decide),
    rfl, ⟨hr0, hr1⟩,
    ((resize_master_only_in_stack_layouts sample_layouts (boot_in_layout 2) 5).2
      (Or.inr rfl) (by decide!) (by decide!)).1,
    ((resize_master_only_in_stack_layouts sample_layouts (boot_in_layout 2) 5).2
      (Or.inr rfl) (by decide!) (by decide!)).2 hr0 hr1⟩

/-! ## Client chains: lemmas -/

theorem is_seg_append (mem : Ptr → Client) (a b : List Ptr) (p q : Option Ptr) :
    is_seg mem p (a ++ b) q ↔ ∃ m, is_seg mem p a m ∧ is_seg mem m b q := by
  induction a generalizing p with
  | nil =>
    constructor
    · intro h
      exact ⟨p, rfl, h⟩
    · rintro ⟨m, hm, h⟩
      have hpm : p = m := hm
      rw [hpm]
      exact h
  | cons c a ih =>
    constructor
    · intro h
      have h2 : p = some c ∧ is_seg mem (mem c).next (a ++ b) q := h
      obtain ⟨m, h3, h4⟩ := (ih (mem c).next).1 h2.2
      exact ⟨m, ⟨h2.1, h3⟩, h4⟩
    · rintro ⟨m, hm, h⟩
      have h2 : p = some c ∧ is_seg mem (mem c).next a m := hm
      exact ⟨h2.1, (ih (mem c).next).2 ⟨m, h2.2, h⟩⟩

theorem is_chain_unique (mem : Ptr → Client) (l1 l2 : List Ptr) (p : Option Ptr)
    (h1 : is_chain mem p l1) (h2 : is_chain mem p l2) : l1 = l2 := by
  induction l1 generalizing p l2 with
  | nil =>
    have hp : p = none := h1
    cases l2 with
    | nil => rfl
    | cons c l =>
      have hc : p = some c := h2.1
      rw [hp] at hc
      cases hc
  | cons c l ih =>
    have hc : p = some c ∧ is_seg mem (mem c).next l none := h1
    cases l2 with
    | nil =>
      have hp : p = none := h2
      rw [hp] at hc
      cases hc.1
    | cons d l3 =>
      have hd : p = some d ∧ is_seg mem (mem d).next l3 none := h2
      have hcd : c = d := by
        have := hc.1.symm.trans hd.1
        exact Option.some.inj this
      subst hcd
      rw [ih l3 (mem c).next hc.2 hd.2]

theorem is_chain_head_not_mem_tail (mem : Ptr → Client) (c : Ptr) (l : List Ptr)
    (p : Option Ptr) (h : is_chain mem p (c :: l)) : c ∉ l := by
  intro hmem
  obtain ⟨a, b, hab⟩ := List.append_of_mem hmem
  have h1 : p = some c ∧ is_seg mem (mem c).next l none := h
  have h2 : is_seg mem (mem c).next (a ++ c :: b) none := by
    rw [← hab]
    exact h1.2
  obtain ⟨m, _, h4⟩ := (is_seg_append mem a (c :: b) (mem c).next none).1 h2
  have h5 : m = some c ∧ is_seg mem (mem c).next b none := h4
  have hlb : l = b := is_chain_unique mem l b (mem c).next h1.2 h5.2
  have hlen : l.length = (a ++ c :: b).length := by rw [← hab]
  rw [hlb] at hlen
  simp at hlen
  omega

theorem is_chain_nodup (mem : Ptr → Client) (l : List Ptr) (p : Option Ptr)
    (h : is_chain mem p l) : l.Nodup := by
  induction l generalizing p with
  | nil => exact List.nodup_nil
  | cons c l ih =>
    have h1 : p = some c ∧ is_seg mem (mem c).next l none := h
    exact List.nodup_cons.2 ⟨is_chain_head_not_mem_tail mem c l p h, ih (mem c).next h1.2⟩

theorem is_seg_update (mem : Ptr → Client) (c : Ptr) (v : Client) (l : List Ptr)
    (p q : Option Ptr) (hc : c ∉ l) :
    is_seg (Function.update mem c v) p l q ↔ is_seg mem p l q := by
  induction l generalizing p with
  | nil => exact Iff.rfl
  | cons d l ih =>
    have hdc : d ≠ c := fun e => hc (by simp [e])
    have hl : c ∉ l := fun e => hc (by simp [e])
    have hnext : (Function.update mem c v d).next = (mem d).next := by
      rw [Function.update_noteq hdc]
    constructor
    · intro h
      have h1 : p = some d ∧
          is_seg (Function.update mem c v) (Function.update mem c v d).next l q := h
      rw [hnext] at h1
      exact ⟨h1.1, (ih (mem d).next hl).1 h1.2⟩
    · intro h
      have h1 : p = some d ∧ is_seg mem (mem d).next l q := h
      refine ⟨h1.1, ?_⟩
      rw [hnext]
      exact (ih (mem d).next hl).2 h1.2

theorem is_seg_retarget_last (mem : Ptr → Client) (gi : List Ptr) (l : Ptr)
    (p t : Option Ptr) (h : is_chain mem p (gi ++ [l])) :
    is_seg (Function.update mem l { mem l with next := t }) p (gi ++ [l]) t := by
  have hnd : (gi ++ [l]).Nodup := is_chain_nodup mem _ p h
  have hl : l ∉ gi := by
    intro hm
    have := List.nodup_append.1 hnd
    exact this.2.2 hm (by simp)
  obtain ⟨m, h1, h2⟩ := (is_seg_append mem gi [l] p none).1 h
  have h3 : m = some l ∧ is_seg mem (mem l).next [] none := h2
  refine (is_seg_append _ gi [l] p t).2 ⟨some l, ?_, ?_⟩
  · rw [is_seg_update mem l _ gi p (some l) hl, ← h3.1]
    exact h1
  · refine ⟨rfl, ?_⟩
    rw [Function.update_same]
    rfl

/-! ## Paste: theorems -/

/-- C9. When `stack_pop` returns no group, `paste` returns normally, whatever
the fuel, and only a warning is added to the trace: the heap, every workspace
(head, current reference, client count and the rest), the current workspace
index and hence the chain of the current workspace are unchanged. -/
theorem paste_empty_register (fuel : Nat) (s : State)
    (h : (stack_pop s.del_reg).1 = none) :
    ∃ s1 : State, paste fuel s = some s1 ∧
      s1.wss = s.wss ∧ s1.mem = s.mem ∧ s1.cw = s.cw ∧ s1.del_reg = s.del_reg ∧
      s1.trace = s.trace ++ [Event.log_warn] ∧
      (∀ l : List Ptr, is_chain s1.mem s1.cur_ws.head l ↔ is_chain s.mem s.cur_ws.head l) := by
  have hreg : s.del_reg = [] := by
    cases hr : s.del_reg with
    | nil => rfl
    | cons g rest =>
      rw [hr] at h
      simp [stack_pop] at h
  refine ⟨{ s with del_reg := [] }.emit Event.log_warn, ?_, rfl, rfl, rfl, ?_, rfl, ?_⟩
  · simp [paste, hreg, stack_pop]
  · simp [State.emit, hreg]
  · intro l
    rfl

theorem paste_empty_register_witness :
    (stack_pop (boot none).del_reg).1 = none ∧
    ∃ s1 : State, paste 0 (boot none) = some s1 ∧
      s1.wss = (boot none).wss ∧ s1.mem = (boot none).mem ∧ s1.cw = (boot none).cw ∧
      s1.del_reg = (boot none).del_reg ∧
      s1.trace = (boot none).trace ++ [Event.log_warn] ∧
      (∀ l : List Ptr, is_chain s1.mem s1.cur_ws.head l ↔
        is_chain (boot none).mem (boot none).cur_ws.head l) :=
  ⟨rfl, paste_empty_register 0 (boot none) rfl⟩

theorem paste_walk_succ (fuel : Nat) (s : State) (c : Ptr) :
    paste_walk (fuel + 1) s (some c) = paste_walk fuel (paste_walk_body s c) (s.mem c).next :=
  rfl

theorem paste_splice_succ_none (t : Option Ptr) (fuel : Nat) (s : State) (c : Ptr)
    (h : (s.mem c).next = none) :
    paste_splice t (fuel + 1) s (some c) = some (paste_splice_break t s c) := by
  simp only [paste_splice, State.emit, State.set_cur_ws, State.cur_ws, State.set_next, h,
    paste_splice_break]

theorem paste_splice_succ_some (t : Option Ptr) (fuel : Nat) (s : State) (c n : Ptr)
    (h : (s.mem c).next = some n) :
    paste_splice t (fuel + 1) s (some c)
      = paste_splice t fuel (paste_splice_continue s c) (some n) := by
  simp only [paste_splice, State.emit, State.set_cur_ws, State.cur_ws, h,
    paste_splice_continue]

theorem paste_walk_body_frame (s : State) (c : Ptr) :
    (paste_walk_body s c).mem = s.mem ∧ (paste_walk_body s c).cw = s.cw ∧
    (paste_walk_body s c).cur_ws.head = s.cur_ws.head ∧
    (paste_walk_body s c).cur_ws.current = some c ∧
    (paste_walk_body s c).cur_ws.client_cnt = s.cur_ws.client_cnt + 1 := by
  simp [paste_walk_body, State.emit, State.set_cur_ws, State.cur_ws]

theorem paste_splice_continue_frame (s : State) (c : Ptr) :
    (paste_splice_continue s c).mem = s.mem ∧ (paste_splice_continue s c).cw = s.cw ∧
    (paste_splice_continue s c).cur_ws.head = s.cur_ws.head ∧
    (paste_splice_continue s c).cur_ws.current = some c ∧
    (paste_splice_continue s c).cur_ws.client_cnt = s.cur_ws.client_cnt + 1 := by
  simp [paste_splice_continue, State.emit, State.set_cur_ws, State.cur_ws]

theorem paste_splice_break_frame (t : Option Ptr) (s : State) (c : Ptr) :
    (paste_splice_break t s c).mem = Function.update s.mem c { s.mem c with next := t } ∧
    (paste_splice_break t s c).cw = s.cw ∧
    (paste_splice_break t s c).cur_ws.head = s.cur_ws.head ∧
    (paste_splice_break t s c).cur_ws.current = some c ∧
    (paste_splice_break t s c).cur_ws.client_cnt = s.cur_ws.client_cnt + 1 := by
  simp [paste_splice_break, State.emit, State.set_cur_ws, State.cur_ws, State.set_next]

theorem paste_walk_spec (g : List Ptr) (c : Ptr) (s : State) (fuel : Nat)
    (hg : is_chain s.mem (some c) (c :: g)) (hfuel : g.length + 1 ≤ fuel) :
    ∃ s1 : State, paste_walk fuel s (some c) = some s1 ∧
      s1.mem = s.mem ∧ s1.cw = s.cw ∧ s1.cur_ws.head = s.cur_ws.head ∧
      s1.cur_ws.current = (c :: g).getLast? ∧
      s1.cur_ws.client_cnt = s.cur_ws.client_cnt + ((g.length + 1 : Nat) : Int) := by
  induction g generalizing c s fuel with
  | nil =>
    obtain ⟨n, rfl⟩ : ∃ n, fuel = n + 1 := ⟨fuel - 1, by omega⟩
    have h1 : some c = some c ∧ is_seg s.mem (s.mem c).next [] none := hg
    have hnext : (s.mem c).next = none := h1.2
    obtain ⟨f1, f2, f3, f4, f5⟩ := paste_walk_body_frame s c
    refine ⟨paste_walk_body s c, ?_, f1, f2, f3, f4, ?_⟩
    · rw [paste_walk_succ, hnext]
      cases n <;> rfl
    · rw [f5]
      simp
  | cons d g ih =>
    obtain ⟨n, rfl⟩ : ∃ n, fuel = n + 1 := ⟨fuel - 1, by omega⟩
    have h1 : some c = some c ∧ is_seg s.mem (s.mem c).next (d :: g) none := hg
    have h2 : (s.mem c).next = some d ∧ is_seg s.mem (s.mem d).next g none := h1.2
    have hnext : (s.mem c).next = some d := h2.1
    obtain ⟨f1, f2, f3, _, f5⟩ := paste_walk_body_frame s c
    have hd : is_chain (paste_walk_body s c).mem (some d) (d :: g) := by
      rw [f1]
      exact ⟨rfl, h2.2⟩
    have hlen : g.length + 1 ≤ n := by
      simp at hfuel
      omega
    obtain ⟨s1, hs1, hm, hcw, hh, hcur, hcnt⟩ := ih d (paste_walk_body s c) n hd hlen
    refine ⟨s1, ?_, ?_, ?_, ?_, ?_, ?_⟩
    · rw [paste_walk_succ, hnext, hs1]
    · rw [hm, f1]
    · rw [hcw, f2]
    · rw [hh, f3]
    · rw [hcur, List.getLast?_cons_cons]
    · rw [hcnt, f5]
      simp
      omega

theorem paste_splice_spec (t : Option Ptr) (g : List Ptr) (c : Ptr) (s : State)
    (fuel : Nat)
    (hg : is_chain s.mem (some c) (c :: g)) (hfuel : g.length + 1 ≤ fuel) :
    ∃ (s1 : State) (l : Ptr), (c :: g).getLast? = some l ∧
      paste_splice t fuel s (some c) = some s1 ∧
      s1.mem = Function.update s.mem l { s.mem l with next := t } ∧
      s1.cw = s.cw ∧ s1.cur_ws.head = s.cur_ws.head ∧
      s1.cur_ws.current = some l ∧
      s1.cur_ws.client_cnt = s.cur_ws.client_cnt + ((g.length + 1 : Nat) : Int) := by
  induction g generalizing c s fuel with
  | nil =>
    obtain ⟨n, rfl⟩ : ∃ n, fuel = n + 1 := ⟨fuel - 1, by omega⟩
    have h1 : some c = some c ∧ is_seg s.mem (s.mem c).next [] none := hg
    have hnext : (s.mem c).next = none := h1.2
    obtain ⟨f1, f2, f3, f4, f5⟩ := paste_splice_break_frame t s c
    refine ⟨paste_splice_break t s c, c, rfl, paste_splice_succ_none t n s c hnext,
      f1, f2, f3, f4, ?_⟩
    rw [f5]
    simp
  | cons d g ih =>
    obtain ⟨n, rfl⟩ : ∃ n, fuel = n + 1 := ⟨fuel - 1, by omega⟩
    have h1 : some c = some c ∧ is_seg s.mem (s.mem c).next (d :: g) none := hg
    have h2 : (s.mem c).next = some d ∧ is_seg s.mem (s.mem d).next g none := h1.2
    have hnext : (s.mem c).next = some d := h2.1
    obtain ⟨f1, f2, f3, _, f5⟩ := paste_splice_continue_frame s c
    have hd : is_chain (paste_splice_continue s c).mem (some d) (d :: g) := by
      rw [f1]
      exact ⟨rfl, h2.2⟩
    have hlen : g.length + 1 ≤ n := by
      simp at hfuel
      omega
    obtain ⟨s1, l, hl, hs1, hm, hcw, hh, hcur, hcnt⟩ :=
      ih d (paste_splice_continue s c) n hd hlen
    refine ⟨s1, l, ?_, ?_, ?_, ?_, ?_, hcur, ?_⟩
    · rw [List.getLast?_cons_cons, hl]
    · rw [paste_splice_succ_some t n s c d hnext, hs1]
    · rw [hm, f1]
    · rw [hcw, f2]
    · rw [hh, f3]
    · rw [hcnt, f5]
      simp
      omega

theorem paste_nonempty_register (fuel : Nat) (s : State) (hd : Ptr) (rest : List Ptr)
    (hpop : stack_pop s.del_reg = (some hd, rest)) :
    paste fuel s =
      (match s.cur_ws.current with
        | none =>
          paste_walk fuel (paste_enter_empty { s with del_reg := rest } hd) (some hd)
        | some cur =>
          match (s.mem cur).next with
          | none =>
            paste_walk fuel (State.set_next { s with del_reg := rest } cur (some hd)) (some hd)
          | some t =>
            paste_splice (some t) fuel
              (State.set_next { s with del_reg := rest } cur (some hd)) (some hd)).map
        fun s3 => update_focused_client s3 s3.cur_ws.current := by
  unfold paste
  rw [hpop]
  rfl

theorem update_focused_client_frame (s : State) (c : Option Ptr) :
    (update_focused_client s c).mem = s.mem ∧ (update_focused_client s c).cw = s.cw ∧
    (update_focused_client s c).cur_ws.head = s.cur_ws.head ∧
    (update_focused_client s c).cur_ws.current = c ∧
    (update_focused_client s c).cur_ws.client_cnt = s.cur_ws.client_cnt ∧
    (update_focused_client s c).trace = s.trace ++ [Event.update_focused_client c] := by
  simp [update_focused_client, State.emit, State.set_cur_ws, State.cur_ws]

theorem paste_enter_empty_frame (s : State) (hd : Ptr) :
    (paste_enter_empty s hd).mem = s.mem ∧ (paste_enter_empty s hd).cw = s.cw ∧
    (paste_enter_empty s hd).cur_ws.head = some hd ∧
    (paste_enter_empty s hd).cur_ws.client_cnt = s.cur_ws.client_cnt := by
  simp [paste_enter_empty, State.set_cur_ws, State.cur_ws]

/-- C10. Let `paste` pop a group whose chain is `g` (non-empty, ending at the
null pointer, sharing no client with the current workspace), and let the
current workspace hold the chain `chainL` with a current reference that is
empty or in `chainL`.  With fuel for `g`, `paste` returns; the focus (the
current reference, and the client last handed to `update_focused_client`) is
the last element of `g`; if the workspace had no clients its chain is now
exactly `g`; and if the focus was on `f`, with `chainL = pre ++ f :: post`,
the chain is now `pre`, `f`, all of `g` in order, then `post`. -/
theorem paste_splices_group (s : State) (hd : Ptr) (rest g chainL : List Ptr) (fuel : Nat)
    (hpop : stack_pop s.del_reg = (some hd, rest))
    (hg : is_chain s.mem (some hd) g)
    (hws : is_chain s.mem s.cur_ws.head chainL)
    (hcur : ∀ f, s.cur_ws.current = some f → f ∈ chainL)
    (hdisj : ∀ c ∈ g, c ∉ chainL)
    (hfuel : g.length ≤ fuel) :
    ∃ s1 : State, paste fuel s = some s1 ∧ s1.cw = s.cw ∧
      s1.cur_ws.current = g.getLast? ∧
      s1.trace.getLast? = some (Event.update_focused_client g.getLast?) ∧
      (chainL = [] → is_chain s1.mem s1.cur_ws.head g) ∧
      (∀ pre f post, s.cur_ws.current = some f → chainL = pre ++ f :: post →
        is_chain s1.mem s1.cur_ws.head (pre ++ f :: (g ++ post))) := by
  cases g with
  | nil =>
    have h : some hd = none := hg
    cases h
  | cons c0 g =>
    have hc0 : some hd = some c0 ∧ is_seg s.mem (s.mem c0).next g none := hg
    obtain rfl : hd = c0 := Option.some.inj hc0.1
    have hlen : g.length + 1 ≤ fuel := by
      simpa using hfuel
    rw [paste_nonempty_register fuel s hd rest hpop]
    cases hcurr : s.cur_ws.current with
    | none =>
      simp only
      obtain ⟨e1, e2, e3, _⟩ := paste_enter_empty_frame { s with del_reg := rest } hd
      have hgE : is_chain (paste_enter_empty { s with del_reg := rest } hd).mem
          (some hd) (hd :: g) := by
        rw [e1]
        exact hg
      obtain ⟨s3, h3, hm, hcw, hh, hc, _⟩ :=
        paste_walk_spec g hd (paste_enter_empty { s with del_reg := rest } hd) fuel hgE hlen
      obtain ⟨u1, u2, u3, u4, _, u6⟩ := update_focused_client_frame s3 s3.cur_ws.current
      refine ⟨update_focused_client s3 s3.cur_ws.current, by rw [h3]; rfl, ?_, ?_, ?_, ?_, ?_⟩
      · rw [u2, hcw, e2]
      · rw [u4, hc]
      · rw [u6, List.getLast?_concat, hc]
      · intro _
        rw [u1, u3, hm, hh, e1, e3]
        exact hg
      · intro pre f post hf
        cases hf
    | some cur =>
      dsimp only
      have hmem : cur ∈ chainL := hcur cur hcurr
      have hcg : cur ∉ hd :: g := fun h => hdisj cur h hmem
      have hgA : is_chain (State.set_next { s with del_reg := rest } cur (some hd)).mem
          (some hd) (hd :: g) :=
        (is_seg_update s.mem cur _ (hd :: g) (some hd) none hcg).2 hg
      have hnd : chainL.Nodup := is_chain_nodup s.mem chainL _ hws
      cases hn : (s.mem cur).next with
      | none =>
        simp only
        obtain ⟨s3, h3, hm, hcw, hh, hc, _⟩ :=
          paste_walk_spec g hd (State.set_next { s with del_reg := rest } cur (some hd))
            fuel hgA hlen
        obtain ⟨u1, u2, u3, u4, _, u6⟩ := update_focused_client_frame s3 s3.cur_ws.current
        refine ⟨update_focused_client s3 s3.cur_ws.current, by rw [h3]; rfl, ?_, ?_, ?_, ?_, ?_⟩
        · rw [u2, hcw]
          rfl
        · rw [u4, hc]
        · rw [u6, List.getLast?_concat, hc]
        · intro he
          rw [he] at hmem
          cases hmem
        · intro pre f post hf hch
          obtain rfl : cur = f := Option.some.inj hf
          subst hch
          obtain ⟨m, hpre, hrest⟩ :=
            (is_seg_append s.mem pre (cur :: post) s.cur_ws.head none).1 hws
          have hr2 : m = some cur ∧ is_seg s.mem (s.mem cur).next post none := hrest
          have hpost : post = [] := by
            cases post with
            | nil => rfl
            | cons d post =>
              have h5 : (s.mem cur).next = some d ∧ is_seg s.mem (s.mem d).next post none :=
                hr2.2
              rw [hn] at h5
              cases h5.1
          subst hpost
          have hcpre : cur ∉ pre := fun h => (List.nodup_append.1 hnd).2.2 h (by simp)
          rw [u1, u3, hm, hh]
          refine (is_seg_append _ pre _ _ none).2 ⟨some cur, ?_, rfl, ?_⟩
          · rw [hr2.1] at hpre
            exact (is_seg_update s.mem cur _ pre _ (some cur) hcpre).2 hpre
          · have hnx : ((State.set_next { s with del_reg := rest } cur (some hd)).mem cur).next
                = some hd := by
              simp [State.set_next]
            rw [hnx, List.append_nil]
            exact hgA
      | some t =>
        simp only
        obtain ⟨s3, l, hl, h3, hm, hcw, hh, hc, _⟩ :=
          paste_splice_spec (some t) g hd
            (State.set_next { s with del_reg := rest } cur (some hd)) fuel hgA hlen
        obtain ⟨u1, u2, u3, u4, _, u6⟩ := update_focused_client_frame s3 s3.cur_ws.current
        refine ⟨update_focused_client s3 s3.cur_ws.current, by rw [h3]; rfl, ?_, ?_, ?_, ?_, ?_⟩
        · rw [u2, hcw]
          rfl
        · rw [u4, hc, hl]
        · rw [u6, List.getLast?_concat, hc, hl]
        · intro he
          rw [he] at hmem
          cases hmem
        · intro pre f post hf hch
          obtain rfl : cur = f := Option.some.inj hf
          subst hch
          obtain ⟨m, hpre, hrest⟩ :=
            (is_seg_append s.mem pre (cur :: post) s.cur_ws.head none).1 hws
          have hr2 : m = some cur ∧ is_seg s.mem (s.mem cur).next post none := hrest
          have hcpre : cur ∉ pre := fun h => (List.nodup_append.1 hnd).2.2 h (by simp)
          have hcpost : cur ∉ post :=
            (List.nodup_cons.1 (List.nodup_append.1 hnd).2.1).1
          have hlg : l ∈ hd :: g := List.mem_of_getLast?_eq_some hl
          have hlall : l ∉ pre ++ cur :: post := hdisj l hlg
          have hlpre : l ∉ pre := fun h => hlall (by simp [h])
          have hlpost : l ∉ post := fun h => hlall (by simp [h])
          have hlcur : cur ≠ l := fun h => hlall (by simp [h])
          obtain ⟨gi, hgi⟩ := List.getLast?_eq_some_iff.1 hl
          rw [u1, u3, hm, hh, hgi]
          rw [hgi] at hgA
          have hseg := is_seg_retarget_last
            (State.set_next { s with del_reg := rest } cur (some hd)).mem gi l (some hd)
            (some t) hgA
          refine (is_seg_append _ pre _ _ none).2 ⟨some cur, ?_, rfl, ?_⟩
          · rw [hr2.1] at hpre
            rw [is_seg_update _ l _ pre _ (some cur) hlpre]
            exact (is_seg_update s.mem cur _ pre _ (some cur) hcpre).2 hpre
          · have hnx : (Function.update
                (State.set_next { s with del_reg := rest } cur (some hd)).mem l
                { (State.set_next { s with del_reg := rest } cur (some hd)).mem l with
                  next := some t } cur).next = some hd := by
              rw [Function.update_noteq hlcur]
              simp [State.set_next]
            rw [hnx]
            refine (is_seg_append _ (gi ++ [l]) post (some hd) none).2 ⟨some t, hseg, ?_⟩
            rw [is_seg_update _ l _ post _ none hlpost]
            refine (is_seg_update s.mem cur _ post _ none hcpost).2 ?_
            rw [← hn]
            exact hr2.2

theorem paste_splices_group_witness :
    stack_pop sample_state.del_reg = (some 4, []) ∧
    is_chain sample_state.mem (some 4) [4, 5] ∧
    is_chain sample_state.mem sample_state.cur_ws.head [1, 2, 3] ∧
    sample_state.cur_ws.current = some 2 ∧
    (∀ c ∈ [4, 5], c ∉ [1, 2, 3]) ∧
    ∃ s1 : State, paste 2 sample_state = some s1 ∧
      s1.cur_ws.current = some 5 ∧
      s1.trace.getLast? = some (Event.update_focused_client (some 5)) ∧
      is_chain s1.mem s1.cur_ws.head [1, 2, 4, 5, 3] := by
  have hpop : stack_pop sample_state.del_reg = (some 4, []) := rfl
  have hg : is_chain sample_state.mem (some 4) [4, 5] := by decide
  have hws : is_chain sample_state.mem sample_state.cur_ws.head [1, 2, 3] := by decide
  have hfoc : sample_state.cur_ws.current = some 2 := rfl
  have hcur : ∀ f, sample_state.cur_ws.current = some f → f ∈ [1, 2, 3] := by
    intro f hf
    rw [hfoc] at hf
    obtain rfl : 2 = f := Option.some.inj hf
    decide
  have hdisj : ∀ c ∈ [4, 5], c ∉ [1, 2, 3] := by decide
  obtain ⟨s1, h1, _, h3, h4, _, h6⟩ :=
    paste_splices_group sample_state 4 [] [4, 5] [1, 2, 3] 2 hpop hg hws hcur hdisj
      (by decide)
  exact ⟨hpop, hg, hws, hfoc, hdisj, s1, h1, h3, h4, h6 [1] 2 [3] hfoc rfl⟩

theorem paste_count_grows (s : State) (hd : Ptr) (rest g : List Ptr) (fuel : Nat)
    (hpop : stack_pop s.del_reg = (some hd, rest))
    (hg : is_chain s.mem (some hd) g)
    (hcg : ∀ cur, s.cur_ws.current = some cur → cur ∉ g)
    (hfuel : g.length ≤ fuel) :
    ∃ s1 : State, paste fuel s = some s1 ∧
      s1.cur_ws.client_cnt = s.cur_ws.client_cnt + (g.length : Int) := by
  cases g with
  | nil =>
    have h : some hd = none := hg
    cases h
  | cons c0 g =>
    have hc0 : some hd = some c0 ∧ is_seg s.mem (s.mem c0).next g none := hg
    obtain rfl : hd = c0 := Option.some.inj hc0.1
    have hlen : g.length + 1 ≤ fuel := by
      simpa using hfuel
    rw [paste_nonempty_register fuel s hd rest hpop]
    cases hcurr : s.cur_ws.current with
    | none =>
      dsimp only
      obtain ⟨e1, _, _, e4⟩ := paste_enter_empty_frame { s with del_reg := rest } hd
      have hgE : is_chain (paste_enter_empty { s with del_reg := rest } hd).mem
          (some hd) (hd :: g) := by
        rw [e1]
        exact hg
      obtain ⟨s3, h3, _, _, _, _, hcnt⟩ :=
        paste_walk_spec g hd (paste_enter_empty { s with del_reg := rest } hd) fuel hgE hlen
      obtain ⟨_, _, _, _, u5, _⟩ := update_focused_client_frame s3 s3.cur_ws.current
      refine ⟨update_focused_client s3 s3.cur_ws.current, by rw [h3]; rfl, ?_⟩
      rw [u5, hcnt, e4]
      rfl
    | some cur =>
      dsimp only
      have hgA : is_chain (State.set_next { s with del_reg := rest } cur (some hd)).mem
          (some hd) (hd :: g) :=
        (is_seg_update s.mem cur _ (hd :: g) (some hd) none (hcg cur hcurr)).2 hg
      cases hn : (s.mem cur).next with
      | none =>
        dsimp only
        obtain ⟨s3, h3, _, _, _, _, hcnt⟩ :=
          paste_walk_spec g hd (State.set_next { s with del_reg := rest } cur (some hd))
            fuel hgA hlen
        obtain ⟨_, _, _, _, u5, _⟩ := update_focused_client_frame s3 s3.cur_ws.current
        refine ⟨update_focused_client s3 s3.cur_ws.current, by rw [h3]; rfl, ?_⟩
        rw [u5, hcnt]
        rfl
      | some t =>
        dsimp only
        obtain ⟨s3, l, _, h3, _, _, _, _, hcnt⟩ :=
          paste_splice_spec (some t) g hd
            (State.set_next { s with del_reg := rest } cur (some hd)) fuel hgA hlen
        obtain ⟨_, _, _, _, u5, _⟩ := update_focused_client_frame s3 s3.cur_ws.current
        refine ⟨update_focused_client s3 s3.cur_ws.current, by rw [h3]; rfl, ?_⟩
        rw [u5, hcnt]
        rfl

/-- C11 fails on the code when the current reference is empty on a non-empty
chain: workspace 1 holds the chain 1, 2, 3 with client count 3 and no current
client, the popped group is 4, 5; `paste` takes its first branch, overwrites
`head` with the group and still adds 2 to the count, so afterwards the chain
reachable from `head` is 4, 5 while the client count is 5. -/
theorem paste_unfocused_breaks_count :
    is_chain sample_unfocused.mem sample_unfocused.cur_ws.head [1, 2, 3] ∧
    sample_unfocused.cur_ws.client_cnt = 3 ∧
    sample_unfocused.cur_ws.current = none ∧
    is_chain sample_unfocused.mem (some 4) [4, 5] ∧
    ∃ s1 : State, paste 2 sample_unfocused = some s1 ∧
      is_chain s1.mem s1.cur_ws.head [4, 5] ∧ s1.cur_ws.client_cnt = 5 ∧
      s1.cur_ws.client_cnt ≠ (([4, 5] : List Ptr).length : Int) := by
  refine ⟨by decide, rfl, rfl, by decide, ?_⟩
  obtain ⟨s1, h1, h2⟩ := paste_count_grows sample_unfocused 4 [] [4, 5] 2 rfl (by decide)
    (by intro cur h; cases h) (by decide)
  have hh : (paste 2 sample_unfocused).map (fun t => t.cur_ws.head) = some (some 4) := rfl
  have hm : (paste 2 sample_unfocused).map (fun t => (t.mem 4).next) = some (some 5) := rfl
  have hm2 : (paste 2 sample_unfocused).map (fun t => (t.mem 5).next) = some none := rfl
  rw [h1] at hh hm hm2
  have hh1 : s1.cur_ws.head = some 4 := Option.some.inj hh
  have hm1 : (s1.mem 4).next = some 5 := Option.some.inj hm
  have hm3 : (s1.mem 5).next = none := Option.some.inj hm2
  have hc : s1.cur_ws.client_cnt = 5 := by
    rw [h2]
    rfl
  refine ⟨s1, h1, ?_, hc, ?_⟩
  · rw [hh1]
    exact ⟨rfl, by rw [hm1]; exact ⟨rfl, hm3⟩⟩
  · rw [hc]
    decide

/-! ## Workspaces: theorems -/

theorem to_unsigned_of_nonneg (i : Int) (h0 : 0 ≤ i) (h1 : i < 2 ^ 32) :
    (to_unsigned i : Int) = i := by
  unfold to_unsigned
  rw [Int.emod_eq_of_lt h0 h1]
  exact Int.toNat_of_nonneg h0

theorem walk_windows_spec (ev : Nat → Event) (l : List Ptr) (p : Option Ptr) (s : State)
    (fuel : Nat) (hl : is_chain s.mem p l) (hfuel : l.length ≤ fuel) :
    ∃ tr : List Event, walk_windows ev fuel s p = some { s with trace := s.trace ++ tr } := by
  induction l generalizing p s fuel with
  | nil =>
    have hp : p = none := hl
    subst hp
    refine ⟨[], ?_⟩
    cases fuel <;> simp [walk_windows]
  | cons c l ih =>
    have h1 : p = some c ∧ is_seg s.mem (s.mem c).next l none := hl
    obtain ⟨rfl, h2⟩ := h1
    obtain ⟨n, rfl⟩ : ∃ n, fuel = n + 1 := ⟨fuel - 1, by simp at hfuel; omega⟩
    have hlen : l.length ≤ n := by
      simp at hfuel
      omega
    obtain ⟨tr, htr⟩ := ih (s.mem c).next (s.emit (ev (s.mem c).win)) n h2 hlen
    refine ⟨ev (s.mem c).win :: tr, ?_⟩
    simp only [walk_windows]
    rw [htr]
    simp [State.emit]

theorem change_ws_outside_array (E : Env) (fuel : Nat) (s : State) (ws : Int)
    (h : ws < 0 ∨ WORKSPACES + (E.wss_slack : Int) < ws) :
    change_ws E fuel s ws = none := by
  unfold change_ws
  rw [if_pos h]

theorem change_ws_reject (E : Env) (fuel : Nat) (s : State) (ws : Int)
    (hb : ¬ (ws < 0 ∨ WORKSPACES + (E.wss_slack : Int) < ws))
    (h : (to_unsigned ws : Int) > WORKSPACES ∨ ws ≤ 0 ∨ ws = s.cw) :
    change_ws E fuel s ws = some s := by
  unfold change_ws
  rw [if_neg hb]
  simp only
  rw [if_pos h]

theorem change_ws_finish_frame (E : Env) (s4 : State) (ws : Int) :
    (change_ws_finish E s4 ws).cw = ws ∧
    (change_ws_finish E s4 ws).last_ws = s4.last_ws ∧
    (change_ws_finish E s4 ws).wss = s4.wss ∧
    (change_ws_finish E s4 ws).mem = s4.mem := by
  refine ⟨rfl, rfl, ?_, rfl⟩
  simp only [change_ws_finish, update_focused_client, State.emit, State.set_cur_ws,
    State.cur_ws]
  exact Function.update_eq_self ws s4.wss

theorem change_ws_result (E : Env) (fuel : Nat) (s s1 : State) (ws : Int)
    (h : change_ws E fuel s ws = some s1) :
    s1 = s ∨ (¬ ((to_unsigned ws : Int) > WORKSPACES ∨ ws ≤ 0 ∨ ws = s.cw) ∧ s1.cw = ws) := by
  unfold change_ws at h
  by_cases hb : ws < 0 ∨ WORKSPACES + (E.wss_slack : Int) < ws
  · rw [if_pos hb] at h
    cases h
  · rw [if_neg hb] at h
    simp only at h
    by_cases hg : (to_unsigned ws : Int) > WORKSPACES ∨ ws ≤ 0 ∨ ws = s.cw
    · rw [if_pos hg] at h
      exact Or.inl (Option.some.inj h).symm
    · rw [if_neg hg] at h
      right
      refine ⟨hg, ?_⟩
      simp only [Option.bind_eq_some, Option.map_eq_some'] at h
      obtain ⟨s3, _, s4, _, h5⟩ := h
      rw [← h5]
      rfl

theorem change_ws_accept (E : Env) (fuel : Nat) (s : State) (ws : Int) (l1 l2 : List Ptr)
    (h1 : 1 ≤ ws) (h2 : ws ≤ WORKSPACES) (hne : ws ≠ s.cw)
    (hc1 : is_chain s.mem (s.wss ws).head l1) (hc2 : is_chain s.mem (s.wss s.cw).head l2)
    (hf1 : l1.length ≤ fuel) (hf2 : l2.length ≤ fuel) :
    ∃ s1 : State, change_ws E fuel s ws = some s1 ∧ s1.cw = ws ∧ s1.last_ws = s.cw ∧
      s1.wss = s.wss ∧ s1.mem = s.mem := by
  have hW : WORKSPACES = 5 := rfl
  have hu : (to_unsigned ws : Int) = ws :=
    to_unsigned_of_nonneg ws (by omega) (by rw [hW] at h2; omega)
  have hg : ¬ ((to_unsigned ws : Int) > WORKSPACES ∨ ws ≤ 0 ∨ ws = s.cw) := by
    rw [hu]
    intro h
    rcases h with h | h | h
    · omega
    · omega
    · exact hne h
  have hb : ¬ (ws < 0 ∨ WORKSPACES + (E.wss_slack : Int) < ws) := by
    intro h
    rcases h with h | h
    · omega
    · omega
  obtain ⟨tr1, ht1⟩ := walk_windows_spec Event.xcb_map_window l1 (s.wss ws).head
    (State.emit { s with last_ws := s.cw } Event.log_info) fuel hc1 hf1
  obtain ⟨tr2, ht2⟩ := walk_windows_spec Event.xcb_unmap_window l2 (s.wss s.cw).head
    { State.emit { s with last_ws := s.cw } Event.log_info with
      trace := (State.emit { s with last_ws := s.cw } Event.log_info).trace ++ tr1 }
    fuel hc2 hf2
  obtain ⟨f1, f2, f3, f4⟩ := change_ws_finish_frame E
    { ({ State.emit { s with last_ws := s.cw } Event.log_info with
        trace := (State.emit { s with last_ws := s.cw } Event.log_info).trace ++ tr1 } : State) with
      trace := ({ State.emit { s with last_ws := s.cw } Event.log_info with
        trace := (State.emit { s with last_ws := s.cw } Event.log_info).trace ++ tr1 } :
          State).trace ++ tr2 } ws
  refine ⟨_, ?_, f1, f2, f3, f4⟩
  unfold change_ws
  rw [if_neg hb]
  simp only
  rw [if_neg hg, ht1]
  simp only [Option.some_bind]
  rw [show ∀ t : State, ({ t with trace := t.trace ++ tr1 } : State).wss
      ({ t with trace := t.trace ++ tr1 } : State).last_ws = t.wss t.last_ws from fun _ => rfl]
  rw [show (State.emit { s with last_ws := s.cw } Event.log_info).wss
      (State.emit { s with last_ws := s.cw } Event.log_info).last_ws = s.wss s.cw from rfl]
  rw [ht2]
  rfl

/-- For an `int` argument `ws`: an index outside the array `wss` gives no
defined result; an index inside the array with `ws <= 0`, `ws > WORKSPACES` or
`ws == cw` makes `change_ws` return the state it was given; a target in
[1, WORKSPACES] other than `cw`, the chains of the target and of the current
workspace being finite and within the fuel, gives `cw = ws`, `last_ws` the
previous `cw`, and workspaces and heap as before; and whenever `change_ws`
returns, a `cw` in [1, WORKSPACES] is still in [1, WORKSPACES]. -/
theorem change_ws_within_array (E : Env) (fuel : Nat) (s : State) (ws : Int)
    (hint : ws < 2 ^ 31) :
    ((ws < 0 ∨ WORKSPACES + (E.wss_slack : Int) < ws) → change_ws E fuel s ws = none) ∧
    ((0 ≤ ws ∧ ws ≤ WORKSPACES + (E.wss_slack : Int)) →
      (ws ≤ 0 ∨ WORKSPACES < ws ∨ ws = s.cw) → change_ws E fuel s ws = some s) ∧
    (∀ l1 l2 : List Ptr, ¬ (ws ≤ 0 ∨ WORKSPACES < ws ∨ ws = s.cw) →
      is_chain s.mem (s.wss ws).head l1 → is_chain s.mem (s.wss s.cw).head l2 →
      l1.length ≤ fuel → l2.length ≤ fuel →
      ∃ s1 : State, change_ws E fuel s ws = some s1 ∧ s1.cw = ws ∧ s1.last_ws = s.cw ∧
        s1.wss = s.wss ∧ s1.mem = s.mem) ∧
    ((1 ≤ s.cw ∧ s.cw ≤ WORKSPACES) →
      ∀ s1 : State, change_ws E fuel s ws = some s1 → 1 ≤ s1.cw ∧ s1.cw ≤ WORKSPACES) := by
  have hW : WORKSPACES = 5 := rfl
  refine ⟨change_ws_outside_array E fuel s ws, ?_, ?_, ?_⟩
  · intro hb h
    apply change_ws_reject
    · intro h2
      rcases h2 with h2 | h2
      · omega
      · omega
    · rcases h with h | h | h
      · exact Or.inr (Or.inl h)
      · left
        rw [to_unsigned_of_nonneg ws (by omega) (by omega)]
        exact h
      · exact Or.inr (Or.inr h)
  · intro l1 l2 h hc1 hc2 hf1 hf2
    push_neg at h
    exact change_ws_accept E fuel s ws l1 l2 (by omega) (by omega) h.2.2 hc1 hc2 hf1 hf2
  · intro hcw s1 h1
    rcases change_ws_result E fuel s s1 ws h1 with h | ⟨hg, h⟩
    · rw [h]
      exact hcw
    · rw [h]
      push_neg at hg
      have hpos : 0 < ws := hg.2.1
      have hu : (to_unsigned ws : Int) = ws := to_unsigned_of_nonneg ws (by omega) (by omega)
      rw [hu] at hg
      exact ⟨by omega, hg.1⟩

/-- C12 fails on the code: `change_ws` begins with `Client *c = wss[ws].head`,
ahead of the guard that declines an invalid `ws`.  For `ws = 100000000` and for
`ws = -1` that read is outside the array `wss` and the call has no defined
result, where the claim has it return with nothing changed.  The invalid
indices inside the array, such as 0 and the current workspace 1, are declined,
and the valid target 2 is taken. -/
theorem change_ws_reads_before_guard :
    change_ws sample_env 1 two_ws_state 100000000 = none ∧
    change_ws sample_env 1 two_ws_state (-1) = none ∧
    change_ws sample_env 1 two_ws_state 0 = some two_ws_state ∧
    change_ws sample_env 1 two_ws_state 1 = some two_ws_state ∧
    (change_ws sample_env 1 two_ws_state 2).map State.cw = some 2 ∧
    (change_ws sample_env 1 two_ws_state 2).map State.last_ws = some 1 := by
  refine ⟨?_, ?_, ?_, ?_, ?_, ?_⟩ <;> rfl

/-! ## Layouts: theorems -/

theorem change_layout_reject (L : Layouts) (s : State) (layout : Int)
    (h : layout = s.cur_ws.layout ∨ layout ≥ L.END_LAYOUT ∨ layout < L.ZOOM) :
    change_layout L s layout = s := by
  unfold change_layout
  rw [if_pos h]

theorem change_layout_accept (L : Layouts) (s : State) (layout : Int)
    (h : ¬ (layout = s.cur_ws.layout ∨ layout ≥ L.END_LAYOUT ∨ layout < L.ZOOM)) :
    (change_layout L s layout).cur_ws.layout = layout ∧
    (change_layout L s layout).previous_layout = layout ∧
    (change_layout L s layout).cw = s.cw := by
  unfold change_layout
  rw [if_neg h]
  simp [update_focused_client, State.emit, State.set_cur_ws, State.cur_ws]

theorem change_layout_keeps_range (L : Layouts) (s : State) (layout : Int)
    (hlo : L.ZOOM ≤ s.cur_ws.layout) (hhi : s.cur_ws.layout < L.END_LAYOUT) :
    L.ZOOM ≤ (change_layout L s layout).cur_ws.layout ∧
      (change_layout L s layout).cur_ws.layout < L.END_LAYOUT := by
  by_cases h : layout = s.cur_ws.layout ∨ layout ≥ L.END_LAYOUT ∨ layout < L.ZOOM
  · rw [change_layout_reject L s layout h]
    exact ⟨hlo, hhi⟩
  · rw [(change_layout_accept L s layout h).1]
    push_neg at h
    exact ⟨h.2.2, h.2.1⟩

theorem change_layout_seq_keeps_range (L : Layouts) (ls : List Int) (s : State)
    (hlo : L.ZOOM ≤ s.cur_ws.layout) (hhi : s.cur_ws.layout < L.END_LAYOUT) :
    L.ZOOM ≤ (ls.foldl (change_layout L) s).cur_ws.layout ∧
      (ls.foldl (change_layout L) s).cur_ws.layout < L.END_LAYOUT := by
  induction ls generalizing s with
  | nil => exact ⟨hlo, hhi⟩
  | cons l ls ih =>
    have h := change_layout_keeps_range L s l hlo hhi
    exact ih (change_layout L s l) h.1 h.2

/-- C13. If `layout < ZOOM`, `layout >= END_LAYOUT` or `layout` is the layout
of the current workspace, `change_layout` returns the state it was given
(layout tag and `previous_layout` included); for every other `layout` the tag
of the current workspace becomes `layout`; and a tag in [ZOOM, END_LAYOUT)
stays there under any sequence of `change_layout` calls. -/
theorem change_layout_validates (L : Layouts) (s : State) (layout : Int)
    (ls : List Int) :
    ((layout < L.ZOOM ∨ L.END_LAYOUT ≤ layout ∨ layout = s.cur_ws.layout) →
      change_layout L s layout = s) ∧
    (¬ (layout < L.ZOOM ∨ L.END_LAYOUT ≤ layout ∨ layout = s.cur_ws.layout) →
      (change_layout L s layout).cur_ws.layout = layout) ∧
    ((L.ZOOM ≤ s.cur_ws.layout ∧ s.cur_ws.layout < L.END_LAYOUT) →
      L.ZOOM ≤ (ls.foldl (change_layout L) s).cur_ws.layout ∧
        (ls.foldl (change_layout L) s).cur_ws.layout < L.END_LAYOUT) := by
  refine ⟨?_, ?_, ?_⟩
  · intro h
    apply change_layout_reject
    rcases h with h | h | h
    · exact Or.inr (Or.inr h)
    · exact Or.inr (Or.inl h)
    · exact Or.inl h
  · intro h
    apply (change_layout_accept L s layout _).1
    intro h2
    apply h
    rcases h2 with h2 | h2 | h2
    · exact Or.inr (Or.inr h2)
    · exact Or.inr (Or.inl h2)
    · exact Or.inl h2
  · intro h
    exact change_layout_seq_keeps_range L ls s h.1 h.2

theorem change_layout_validates_witness :
    change_layout sample_layouts (boot_in_layout 1) 3 = boot_in_layout 1 ∧
    (change_layout sample_layouts (boot_in_layout 1) 2).cur_ws.layout = 2 ∧
    (sample_layouts.ZOOM ≤
        ([7, 2, -1, 0].foldl (change_layout sample_layouts) (boot_in_layout 1)).cur_ws.layout ∧
      ([7, 2, -1, 0].foldl (change_layout sample_layouts) (boot_in_layout 1)).cur_ws.layout
        < sample_layouts.END_LAYOUT) :=
  ⟨(change_layout_validates sample_layouts (boot_in_layout 1) 3 []).1
      (Or.inr (Or.inl (by decide))),
    (change_layout_validates sample_layouts (boot_in_layout 1) 2 []).2.1 (by decide),
    (change_layout_validates sample_layouts (boot_in_layout 1) 0 [7, 2, -1, 0]).2.2
      (by decide)⟩

theorem last_layout_after_change_layout (L : Layouts) (s : State) (b : Int)
    (h : ¬ (b = s.cur_ws.layout ∨ b ≥ L.END_LAYOUT ∨ b < L.ZOOM)) :
    (last_layout L (change_layout L s b)).cur_ws.layout = b := by
  obtain ⟨h1, h2, _⟩ := change_layout_accept L s b h
  unfold last_layout
  rw [change_layout_reject]
  · exact h1
  · left
    rw [h2]
    exact h1.symm

/-- C15 fails on the code: `change_layout` stores the new layout, not the one
it replaces, into `previous_layout`.  With the current workspace in layout 0,
after `change_layout 1` both the layout and `previous_layout` are 1, and
`last_layout` then asks for layout 1 again, which is rejected as the current
one: the workspace stays in layout 1 instead of returning to layout 0. -/
theorem last_layout_does_not_return :
    (boot_in_layout 0).cur_ws.layout = 0 ∧
    (change_layout sample_layouts (boot_in_layout 0) 1).cur_ws.layout = 1 ∧
    (change_layout sample_layouts (boot_in_layout 0) 1).previous_layout = 1 ∧
    (last_layout sample_layouts
      (change_layout sample_layouts (boot_in_layout 0) 1)).cur_ws.layout = 1 ∧
    (last_layout sample_layouts
      (change_layout sample_layouts (boot_in_layout 0) 1)).cur_ws.layout ≠ 0 := by
  refine ⟨rfl, ?_, ?_, ?_, ?_⟩ <;> decide

theorem cur_ws_emit (s : State) (e : Event) : (s.emit e).cur_ws = s.cur_ws := rfl

theorem next_layout_spec (L : Layouts) (s : State) (h2 : 2 ≤ L.END_LAYOUT) (hz : L.ZOOM = 0)
    (hlo : 0 ≤ s.cur_ws.layout) (hhi : s.cur_ws.layout < L.END_LAYOUT) :
    (next_layout L s).cur_ws.layout = (s.cur_ws.layout + 1) % L.END_LAYOUT ∧
    (next_layout L s).cw = s.cw := by
  have hmod : Int.tmod (s.cur_ws.layout + 1) L.END_LAYOUT
      = (s.cur_ws.layout + 1) % L.END_LAYOUT :=
    Int.tmod_eq_emod (by omega) (by omega)
  have hnn : 0 ≤ (s.cur_ws.layout + 1) % L.END_LAYOUT := Int.emod_nonneg _ (by omega)
  have hlt : (s.cur_ws.layout + 1) % L.END_LAYOUT < L.END_LAYOUT :=
    Int.emod_lt_of_pos _ (by omega)
  have hne : (s.cur_ws.layout + 1) % L.END_LAYOUT ≠ s.cur_ws.layout := by
    by_cases hc : s.cur_ws.layout + 1 < L.END_LAYOUT
    · rw [Int.emod_eq_of_lt (by omega) hc]
      omega
    · have he : s.cur_ws.layout + 1 = L.END_LAYOUT := by omega
      rw [he, Int.emod_self]
      omega
  unfold next_layout
  simp only
  rw [hmod]
  have hacc := change_layout_accept L (s.emit Event.log_info)
    ((s.cur_ws.layout + 1) % L.END_LAYOUT) (by
      rw [cur_ws_emit, hz]
      intro h
      rcases h with h | h | h
      · exact hne h
      · omega
      · omega)
  exact ⟨hacc.1, hacc.2.2⟩

theorem prev_layout_spec (L : Layouts) (s : State) (h2 : 2 ≤ L.END_LAYOUT) (hz : L.ZOOM = 0)
    (hlo : 0 ≤ s.cur_ws.layout) (hhi : s.cur_ws.layout < L.END_LAYOUT) :
    (prev_layout L s).cur_ws.layout
      = (if s.cur_ws.layout = 0 then L.END_LAYOUT - 1 else s.cur_ws.layout - 1) ∧
    (prev_layout L s).cw = s.cw := by
  have hi : (if s.cur_ws.layout < 1 then L.END_LAYOUT - 1 else s.cur_ws.layout - 1)
      = (if s.cur_ws.layout = 0 then L.END_LAYOUT - 1 else s.cur_ws.layout - 1) := by
    by_cases h0 : s.cur_ws.layout = 0
    · rw [if_pos h0, if_pos (by omega)]
    · rw [if_neg h0, if_neg (by omega)]
  unfold prev_layout
  simp only
  rw [hi]
  have hacc := change_layout_accept L (s.emit Event.log_info)
    (if s.cur_ws.layout = 0 then L.END_LAYOUT - 1 else s.cur_ws.layout - 1) (by
      rw [cur_ws_emit, hz]
      by_cases h0 : s.cur_ws.layout = 0
      · rw [if_pos h0]
        intro h
        rcases h with h | h | h <;> omega
      · rw [if_neg h0]
        intro h
        rcases h with h | h | h <;> omega)
  exact ⟨hacc.1, hacc.2.2⟩

/-- C20. With ZOOM the layout 0 and at least two layouts, for a workspace whose
layout tag `l` is in [ZOOM, END_LAYOUT): `next_layout` sets the tag to
`(l + 1) mod END_LAYOUT`, `prev_layout` sets it to `END_LAYOUT - 1` when `l` is
the first layout and to `l - 1` otherwise, and `next_layout` followed by
`prev_layout`, or the reverse, restores `l`. -/
theorem layouts_cycle (L : Layouts) (s : State) (hz : L.ZOOM = 0) (h2 : 2 ≤ L.END_LAYOUT)
    (hlo : L.ZOOM ≤ s.cur_ws.layout) (hhi : s.cur_ws.layout < L.END_LAYOUT) :
    (next_layout L s).cur_ws.layout = (s.cur_ws.layout + 1) % L.END_LAYOUT ∧
    (prev_layout L s).cur_ws.layout
      = (if s.cur_ws.layout = L.ZOOM then L.END_LAYOUT - 1 else s.cur_ws.layout - 1) ∧
    (prev_layout L (next_layout L s)).cur_ws.layout = s.cur_ws.layout ∧
    (next_layout L (prev_layout L s)).cur_ws.layout = s.cur_ws.layout := by
  rw [hz] at hlo ⊢
  obtain ⟨n1, _⟩ := next_layout_spec L s h2 hz hlo hhi
  obtain ⟨p1, _⟩ := prev_layout_spec L s h2 hz hlo hhi
  have hnn : 0 ≤ (s.cur_ws.layout + 1) % L.END_LAYOUT := Int.emod_nonneg _ (by omega)
  have hlt : (s.cur_ws.layout + 1) % L.END_LAYOUT < L.END_LAYOUT :=
    Int.emod_lt_of_pos _ (by omega)
  have hpn : 0 ≤ (prev_layout L s).cur_ws.layout ∧
      (prev_layout L s).cur_ws.layout < L.END_LAYOUT := by
    rw [p1]
    by_cases h0 : s.cur_ws.layout = 0
    · rw [if_pos h0]
      omega
    · rw [if_neg h0]
      omega
  obtain ⟨pn, _⟩ := prev_layout_spec L (next_layout L s) h2 hz (by rw [n1]; exact hnn)
    (by rw [n1]; exact hlt)
  obtain ⟨np, _⟩ := next_layout_spec L (prev_layout L s) h2 hz hpn.1 hpn.2
  refine ⟨n1, p1, ?_, ?_⟩
  · rw [pn, n1]
    by_cases hc : s.cur_ws.layout + 1 < L.END_LAYOUT
    · rw [Int.emod_eq_of_lt (by omega) hc, if_neg (by omega)]
      omega
    · have he : s.cur_ws.layout + 1 = L.END_LAYOUT := by omega
      rw [he, Int.emod_self, if_pos rfl]
      omega
  · rw [np, p1]
    by_cases h0 : s.cur_ws.layout = 0
    · rw [if_pos h0, h0]
      have : L.END_LAYOUT - 1 + 1 = L.END_LAYOUT := by omega
      rw [this, Int.emod_self]
    · rw [if_neg h0]
      have : s.cur_ws.layout - 1 + 1 = s.cur_ws.layout := by omega
      rw [this, Int.emod_eq_of_lt hlo hhi]

theorem layouts_cycle_witness :
    sample_layouts.ZOOM = 0 ∧ 2 ≤ sample_layouts.END_LAYOUT ∧
    (next_layout sample_layouts (boot_in_layout 2)).cur_ws.layout
      = ((boot_in_layout 2).cur_ws.layout + 1) % sample_layouts.END_LAYOUT ∧
    (prev_layout sample_layouts (boot_in_layout 2)).cur_ws.layout
      = (if (boot_in_layout 2).cur_ws.layout = sample_layouts.ZOOM
          then sample_layouts.END_LAYOUT - 1 else (boot_in_layout 2).cur_ws.layout - 1) ∧
    (prev_layout sample_layouts (next_layout sample_layouts (boot_in_layout 2))).cur_ws.layout
      = (boot_in_layout 2).cur_ws.layout ∧
    (next_layout sample_layouts (prev_layout sample_layouts (boot_in_layout 2))).cur_ws.layout
      = (boot_in_layout 2).cur_ws.layout :=
  ⟨rfl, by decide,
    layouts_cycle sample_layouts (boot_in_layout 2) rfl (by decide) (by decide) (by decide)⟩

/-! ## The command channel: theorems -/

theorem serve_connection_without_data
    (ipc_process_cmd : State → List Char → Int → State × Int)
    (s : State) (data : List Char) (n : Int) (write_ok : Bool) (h : n ≤ 0) :
    serve_connection ipc_process_cmd s data n write_ok = s := by
  unfold serve_connection
  rw [if_neg (by omega)]

/-- C14 fails on the code for an empty or failed read: the reply and the
`close` are both inside `if (n > 0)`, so for `n = 0` and for `n = -1` the
service of the connection produces no event at all (no status written, the
connection not closed), while for `n = 1` it writes one status and closes. -/
theorem serve_connection_silent_on_empty_read :
    (serve_connection (fun s _ _ => (s, 0)) (boot none) [] 0 true).trace = [] ∧
    (serve_connection (fun s _ _ => (s, 0)) (boot none) [] (-1) true).trace = [] ∧
    (serve_connection (fun s _ _ => (s, 0)) (boot none) ['q'] 1 true).trace
      = [Event.write 0, Event.close] := by
  refine ⟨?_, ?_, ?_⟩ <;> decide

/-! ## Urgent clients and the last workspace: theorems -/

/-- C16 fails on the code: the scan over the workspaces has no exit, so it
always ends with `w = WORKSPACES + 1` and with the result of the last
workspace.  With the only urgent client in workspace 2 and workspace 1
current, `focus_urgent` changes nothing; with the urgent client in workspace
5, `change_ws` is asked for workspace 6 and declines (in `sample_env` the
element `wss[6]` that it reads first exists), the current workspace stays 1,
and its current reference is set to the client of workspace 5. -/
theorem focus_urgent_misses :
    ((urgent_state 2).mem 2).is_urgent = true ∧
    is_chain (urgent_state 2).mem ((urgent_state 2).wss 2).head [2] ∧
    focus_urgent sample_env 5 (urgent_state 2) = some (urgent_state 2) ∧
    is_chain (urgent_state 5).mem ((urgent_state 5).wss 5).head [2] ∧
    is_chain (urgent_state 5).mem ((urgent_state 5).wss 1).head [1] ∧
    (focus_urgent sample_env 5 (urgent_state 5)).map State.cw = some 1 ∧
    (focus_urgent sample_env 5 (urgent_state 5)).map (fun t => t.cur_ws.current)
      = some (some 2) ∧
    (focus_urgent sample_env 5 (urgent_state 5)).map State.trace
      = some [Event.log_info, Event.update_focused_client (some 2)] := by
  refine ⟨rfl, by decide, rfl, by decide, by decide, ?_, ?_, ?_⟩ <;> rfl

theorem focus_last_ws_accept (E : Env) (fuel : Nat) (s : State) (l1 l2 : List Ptr)
    (h1 : 1 ≤ s.last_ws) (h2 : s.last_ws ≤ WORKSPACES) (hne : s.last_ws ≠ s.cw)
    (hc1 : is_chain s.mem (s.wss s.last_ws).head l1)
    (hc2 : is_chain s.mem (s.wss s.cw).head l2)
    (hf1 : l1.length ≤ fuel) (hf2 : l2.length ≤ fuel) :
    ∃ s1 : State, focus_last_ws E fuel s = some s1 ∧ s1.cw = s.last_ws ∧
      s1.last_ws = s.cw ∧ s1.wss = s.wss ∧ s1.mem = s.mem :=
  change_ws_accept E fuel (s.emit Event.log_info) s.last_ws l1 l2 h1 h2 hne hc1 hc2 hf1 hf2

/-- C17. With the current workspace `a = cw` and a target `b`, both in
[1, WORKSPACES] and distinct, their chains finite and within the fuel:
`change_ws b` returns, then `focus_last_ws` returns with `a` current again and
`b` the last workspace, and a second `focus_last_ws` returns to `b`, the
workspace the two calls started from. -/
theorem focus_last_ws_returns (E : Env) (fuel : Nat) (s : State) (b : Int)
    (la lb : List Ptr)
    (ha : 1 ≤ s.cw ∧ s.cw ≤ WORKSPACES) (hb : 1 ≤ b ∧ b ≤ WORKSPACES) (hne : b ≠ s.cw)
    (hca : is_chain s.mem (s.wss s.cw).head la) (hcb : is_chain s.mem (s.wss b).head lb)
    (hfa : la.length ≤ fuel) (hfb : lb.length ≤ fuel) :
    ∃ s1 s2 s3 : State, change_ws E fuel s b = some s1 ∧ s1.cw = b ∧
      focus_last_ws E fuel s1 = some s2 ∧ s2.cw = s.cw ∧ s2.last_ws = b ∧
      focus_last_ws E fuel s2 = some s3 ∧ s3.cw = b ∧ s3.last_ws = s.cw := by
  obtain ⟨s1, e1, c1, l1, w1, m1⟩ :=
    change_ws_accept E fuel s b lb la hb.1 hb.2 hne hcb hca hfb hfa
  obtain ⟨s2, e2, c2, l2, w2, m2⟩ :=
    focus_last_ws_accept E fuel s1 la lb (by rw [l1]; exact ha.1) (by rw [l1]; exact ha.2)
      (by rw [l1, c1]; exact fun h => hne h.symm)
      (by rw [m1, w1, l1]; exact hca) (by rw [m1, w1, c1]; exact hcb) hfa hfb
  obtain ⟨s3, e3, c3, l3, _, _⟩ :=
    focus_last_ws_accept E fuel s2 lb la (by rw [l2, c1]; exact hb.1)
      (by rw [l2, c1]; exact hb.2)
      (by rw [l2, c2, c1, l1]; exact hne)
      (by rw [m2, w2, m1, w1, l2, c1]; exact hcb)
      (by rw [m2, w2, m1, w1, c2, l1]; exact hca) hfb hfa
  refine ⟨s1, s2, s3, e1, c1, e2, ?_, ?_, e3, ?_, ?_⟩
  · rw [c2, l1]
  · rw [l2, c1]
  · rw [c3, l2, c1]
  · rw [l3, c2, l1]

theorem focus_last_ws_returns_witness :
    (1 ≤ two_ws_state.cw ∧ two_ws_state.cw ≤ WORKSPACES) ∧
    ((1 : Int) ≤ 2 ∧ (2 : Int) ≤ WORKSPACES) ∧ (2 : Int) ≠ two_ws_state.cw ∧
    ∃ s1 s2 s3 : State, change_ws sample_env 1 two_ws_state 2 = some s1 ∧ s1.cw = 2 ∧
      focus_last_ws sample_env 1 s1 = some s2 ∧ s2.cw = two_ws_state.cw ∧ s2.last_ws = 2 ∧
      focus_last_ws sample_env 1 s2 = some s3 ∧ s3.cw = 2 ∧
      s3.last_ws = two_ws_state.cw :=
  ⟨by decide, by decide, by decide,
    focus_last_ws_returns sample_env 1 two_ws_state 2 [1] [2] (by decide) (by decide)
      (by decide) (by decide) (by decide) (by decide) (by decide)⟩

/-! ## Floating clients: theorems -/

theorem wrap_int_of_range (i : Int) (h0 : -2 ^ 31 ≤ i) (h1 : i < 2 ^ 31) : wrap_int i = i := by
  have hm0 : 0 ≤ i % 2 ^ 32 := Int.emod_nonneg _ (by norm_num)
  have hm1 : i % 2 ^ 32 < 2 ^ 32 := Int.emod_lt_of_pos _ (by norm_num)
  have hcast : ((to_unsigned i : Nat) : Int) = i % 2 ^ 32 := Int.toNat_of_nonneg hm0
  have hlt : to_unsigned i < 2 ^ 32 := by
    have : ((to_unsigned i : Nat) : Int) < 2 ^ 32 := by
      rw [hcast]
      exact hm1
    exact_mod_cast this
  have hmod : to_unsigned i % 2 ^ 32 = to_unsigned i := Nat.mod_eq_of_lt hlt
  unfold wrap_int to_int
  rw [hmod, hcast]
  by_cases hneg : 0 ≤ i
  · have he : i % 2 ^ 32 = i := Int.emod_eq_of_lt hneg (by omega)
    have hu : to_unsigned i < 2 ^ 31 := by
      have : ((to_unsigned i : Nat) : Int) < 2 ^ 31 := by
        rw [hcast, he]
        exact h1
      exact_mod_cast this
    rw [if_pos hu, he]
  · have he : i % 2 ^ 32 = i + 2 ^ 32 := by
      have h3 : (i + 2 ^ 32) % 2 ^ 32 = i + 2 ^ 32 :=
        Int.emod_eq_of_lt (by omega) (by omega)
      rw [← h3]
      simp
    have hu : ¬ to_unsigned i < 2 ^ 31 := by
      intro hlt2
      have : ((to_unsigned i : Nat) : Int) < 2 ^ 31 := by exact_mod_cast hlt2
      rw [hcast, he] at this
      omega
    rw [if_neg hu, he]
    omega

theorem to_u16_of_range (i : Int) (h0 : 0 ≤ i) (h1 : i ≤ 65535) : (to_u16 i : Int) = i := by
  unfold to_u16
  rw [Int.emod_eq_of_lt h0 (by omega)]
  exact Int.toNat_of_nonneg h0

/-- C18, as stated, fails: the width is a 16-bit field.  For the floating
client of width 1 (and height 1), `resize_float_width 65535` passes the guard,
as 1 + 65535 > 0, and stores 65536 truncated to 16 bits: the stored width is 0,
not 65536; the same holds for `resize_float_height`. -/
theorem resize_float_wraps_to_zero :
    (float_state 1 1).cur_ws.current = some 1 ∧
    ((float_state 1 1).mem 1).is_floating = true ∧
    ((float_state 1 1).mem 1).w = 1 ∧ ((float_state 1 1).mem 1).h = 1 ∧
    (0 : Int) < 1 + 65535 ∧
    ((resize_float_width (float_state 1 1) 65535).mem 1).w = 0 ∧
    ((resize_float_height (float_state 1 1) 65535).mem 1).h = 0 := by
  refine ⟨rfl, rfl, rfl, rfl, by decide, ?_, ?_⟩ <;> decide

/-- C18, amended. For a floating current client with 16-bit width `w >= 1`
and an `int` argument `dw`: when `0 < w + dw <= 65535` the stored width after
`resize_float_width dw` is `w + dw`; when `w + dw <= 0` the state is returned
unchanged, so the width is still `w`; hence whenever `w + dw <= 65535` the
stored width is not 0.  The same holds for `resize_float_height` and the
height. -/
theorem resize_float_in_range (s : State) (c : Ptr) (d : Int)
    (hcur : s.cur_ws.current = some c) (hfl : (s.mem c).is_floating = true)
    (hd : -2 ^ 31 ≤ d ∧ d < 2 ^ 31)
    (hw : 1 ≤ (s.mem c).w ∧ (s.mem c).w < 65536)
    (hh : 1 ≤ (s.mem c).h ∧ (s.mem c).h < 65536) :
    ((0 < ((s.mem c).w : Int) + d → ((s.mem c).w : Int) + d ≤ 65535 →
        (((resize_float_width s d).mem c).w : Int) = ((s.mem c).w : Int) + d) ∧
      (((s.mem c).w : Int) + d ≤ 0 → resize_float_width s d = s) ∧
      (((s.mem c).w : Int) + d ≤ 65535 → 0 < ((resize_float_width s d).mem c).w)) ∧
    ((0 < ((s.mem c).h : Int) + d → ((s.mem c).h : Int) + d ≤ 65535 →
        (((resize_float_height s d).mem c).h : Int) = ((s.mem c).h : Int) + d) ∧
      (((s.mem c).h : Int) + d ≤ 0 → resize_float_height s d = s) ∧
      (((s.mem c).h : Int) + d ≤ 65535 → 0 < ((resize_float_height s d).mem c).h)) := by
  have hfl2 : ¬ (s.mem c).is_floating = false := by
    rw [hfl]
    decide
  have hwacc : 0 < ((s.mem c).w : Int) + d → ((s.mem c).w : Int) + d ≤ 65535 →
      (((resize_float_width s d).mem c).w : Int) = ((s.mem c).w : Int) + d := by
    intro h0 h1
    have hwr := wrap_int_of_range (((s.mem c).w : Int) + d) (by omega) (by omega)
    have hg : ¬ ((s.mem c).is_floating = false ∨ wrap_int (((s.mem c).w : Int) + d) ≤ 0) := by
      rw [hwr]
      intro h
      rcases h with h | h
      · exact hfl2 h
      · omega
    unfold resize_float_width
    rw [hcur]
    dsimp only
    rw [if_neg hg]
    simp only [State.emit, State.set_client, Function.update_same]
    exact to_u16_of_range _ (by omega) h1
  have hwrej : ((s.mem c).w : Int) + d ≤ 0 → resize_float_width s d = s := by
    intro h0
    have hwr := wrap_int_of_range (((s.mem c).w : Int) + d) (by omega) (by omega)
    unfold resize_float_width
    rw [hcur]
    dsimp only
    rw [if_pos (Or.inr (by rw [hwr]; exact h0))]
  have hhacc : 0 < ((s.mem c).h : Int) + d → ((s.mem c).h : Int) + d ≤ 65535 →
      (((resize_float_height s d).mem c).h : Int) = ((s.mem c).h : Int) + d := by
    intro h0 h1
    have hwr := wrap_int_of_range (((s.mem c).h : Int) + d) (by omega) (by omega)
    have hg : ¬ ((s.mem c).is_floating = false ∨ wrap_int (((s.mem c).h : Int) + d) ≤ 0) := by
      rw [hwr]
      intro h
      rcases h with h | h
      · exact hfl2 h
      · omega
    unfold resize_float_height
    rw [hcur]
    dsimp only
    rw [if_neg hg]
    simp only [State.emit, State.set_client, Function.update_same]
    exact to_u16_of_range _ (by omega) h1
  have hhrej : ((s.mem c).h : Int) + d ≤ 0 → resize_float_height s d = s := by
    intro h0
    have hwr := wrap_int_of_range (((s.mem c).h : Int) + d) (by omega) (by omega)
    unfold resize_float_height
    rw [hcur]
    dsimp only
    rw [if_pos (Or.inr (by rw [hwr]; exact h0))]
  refine ⟨⟨hwacc, hwrej, ?_⟩, ⟨hhacc, hhrej, ?_⟩⟩
  · intro h1
    by_cases h0 : 0 < ((s.mem c).w : Int) + d
    · have := hwacc h0 h1
      omega
    · rw [hwrej (by omega)]
      exact hw.1
  · intro h1
    by_cases h0 : 0 < ((s.mem c).h : Int) + d
    · have := hhacc h0 h1
      omega
    · rw [hhrej (by omega)]
      exact hh.1

theorem resize_float_in_range_witness :
    (float_state 300 200).cur_ws.current = some 1 ∧
    ((float_state 300 200).mem 1).is_floating = true ∧
    (((resize_float_width (float_state 300 200) (-100)).mem 1).w : Int)
      = (((float_state 300 200).mem 1).w : Int) + (-100) ∧
    resize_float_height (float_state 300 200) (-200) = float_state 300 200 :=
  ⟨rfl, rfl,
    (resize_float_in_range (float_state 300 200) 1 (-100) rfl rfl (by decide) (by decide)
      (by decide)).1.1 (by decide) (by decide),
    (resize_float_in_range (float_state 300 200) 1 (-200) rfl rfl (by decide) (by decide)
      (by decide)).2.2.1 (by decide)⟩

/-- C19. When the current workspace has no current client, or its current
client is not floating, each of `move_float_x`, `move_float_y`,
`resize_float_width`, `resize_float_height` and `teleport_client` returns the
state it was given, for every argument: no client geometry and no workspace
field changes. -/
theorem float_commands_decline (T : Teleports) (E : Env) (s : State) (d direction : Int)
    (h : s.cur_ws.current = none ∨
      ∃ c, s.cur_ws.current = some c ∧ (s.mem c).is_floating = false) :
    move_float_x s d = s ∧ move_float_y s d = s ∧ resize_float_width s d = s ∧
    resize_float_height s d = s ∧ teleport_client T E s direction = s := by
  rcases h with h | ⟨c, hc, hf⟩
  · unfold move_float_x move_float_y resize_float_width resize_float_height teleport_client
    rw [h]
    exact ⟨rfl, rfl, rfl, rfl, rfl⟩
  · refine ⟨?_, ?_, ?_, ?_, ?_⟩
    · unfold move_float_x
      rw [hc]
      dsimp only
      rw [if_pos hf]
    · unfold move_float_y
      rw [hc]
      dsimp only
      rw [if_pos hf]
    · unfold resize_float_width
      rw [hc]
      dsimp only
      rw [if_pos (Or.inl hf)]
    · unfold resize_float_height
      rw [hc]
      dsimp only
      rw [if_pos (Or.inl hf)]
    · unfold teleport_client
      rw [hc]
      dsimp only
      rw [if_pos (Or.inl hf)]

theorem float_commands_decline_witness :
    two_ws_state.cur_ws.current = some 1 ∧ (two_ws_state.mem 1).is_floating = false ∧
    move_float_x two_ws_state 5 = two_ws_state ∧ move_float_y two_ws_state 5 = two_ws_state ∧
    resize_float_width two_ws_state 5 = two_ws_state ∧
    resize_float_height two_ws_state 5 = two_ws_state ∧
    teleport_client sample_teleports sample_env two_ws_state 3 = two_ws_state :=
  ⟨rfl, rfl,
    float_commands_decline sample_teleports sample_env two_ws_state 5 3
      (Or.inr ⟨1, rfl, rfl⟩)⟩

/-! ## Motion tokens: theorems -/

/-- C21. In every grammar state, with an operator `f` stored: a token that
begins with 'w' makes `motion` do exactly what it does on the token "w", and
the operator is called once with scope WORKSPACE and the pending count; a
token that begins with 'c' makes it do exactly what it does on "c", with scope
CLIENT.  The characters after the first play no part. -/
theorem motion_scope_from_first_char (s : State) (f : Nat) (t : List Char)
    (hf : s.operator_func = some f) :
    (t.head? = some 'w' →
      motion s t = motion s ['w'] ∧
      ∃ s1 : State, motion s t = some s1 ∧
        s1.trace = s.trace ++ [Event.operator_func f Scope.WORKSPACE s.cur_cnt] ∧
        s1.cur_state = OPERATOR_STATE ∧ s1.cur_cnt = 1) ∧
    (t.head? = some 'c' →
      motion s t = motion s ['c'] ∧
      ∃ s1 : State, motion s t = some s1 ∧
        s1.trace = s.trace ++ [Event.operator_func f Scope.CLIENT s.cur_cnt] ∧
        s1.cur_state = OPERATOR_STATE ∧ s1.cur_cnt = 1) := by
  constructor
  · intro h
    rw [motion_of_w s t h, motion_of_w s ['w'] rfl]
    refine ⟨rfl, ?_⟩
    simp [motion_dispatch, hf, State.emit]
  · intro h
    rw [motion_of_c s t h, motion_of_c s ['c'] rfl]
    refine ⟨rfl, ?_⟩
    simp [motion_dispatch, hf, State.emit]

theorem motion_scope_from_first_char_witness :
    (boot (some 7)).operator_func = some 7 ∧
    ['w', 'x'].head? = some 'w' ∧
    motion (boot (some 7)) ['w', 'x'] = motion (boot (some 7)) ['w'] ∧
    ∃ s1 : State, motion (boot (some 7)) ['w', 'x'] = some s1 ∧
      s1.trace = (boot (some 7)).trace ++
        [Event.operator_func 7 Scope.WORKSPACE (boot (some 7)).cur_cnt] ∧
      s1.cur_state = OPERATOR_STATE ∧ s1.cur_cnt = 1 :=
  ⟨rfl, rfl, (motion_scope_from_first_char (boot (some 7)) 7 ['w', 'x'] rfl).1 rfl⟩

end Howm
